import Mathlib

/-!
Verification of the agent-flow task-orchestration engine
(`src/agent/core/executor.py`, `src/agent/core/react_agent.py`,
`src/agent/core/llm_provider.py`, `src/agent/tools/base.py`).

The embedding works over a JSON-like value type `JVal` modelling the Python
data the engine manipulates (values produced by `json.loads` and passed
around as step parameters / outputs): `None`, `bool`, `int`, `str`, `list`,
`dict`.  Python dicts are modelled as insertion-ordered association lists
(the engine only builds them from JSON text or literals, so keys are unique
in every situation the claims quantify over).  JSON numbers are modelled as
integers (no claim involves floats).  Text is processed as `List Char`,
matching Python's per-character string indexing.

Exceptions are modelled with `Except String`, carrying the exception
message (`str(e)` in the source).  Wall-clock fields (`start_time`,
`end_time`, `duration`, `execution_time`) are not modelled; no claim
mentions them.
-/

namespace AgentFlow

/-! Model of the Python values flowing through the engine (results of
`json.loads`, step parameters, step outputs): `None` / `bool` / `int` /
`str` / `list` / `dict`.  Dicts are insertion-ordered association lists. -/

mutual
inductive JVal where
  | null : JVal
  | bool (b : Bool) : JVal
  | num (n : Int) : JVal
  | str (s : String) : JVal
  | arr (elems : JArr) : JVal
  | obj (fields : JObj) : JVal
  deriving DecidableEq
inductive JArr where
  | nil : JArr
  | cons (hd : JVal) (tl : JArr) : JArr
  deriving DecidableEq
inductive JObj where
  | nil : JObj
  | cons (key : String) (val : JVal) (tl : JObj) : JObj
  deriving DecidableEq
end

/-- Python `dict.get(k)` / `k in dict` lookup on the association-list model
(first match; dict keys are unique). -/
def JObj.get? : JObj → String → Option JVal
  | .nil, _ => none
  | .cons k v tl, key => if k = key then some v else JObj.get? tl key

/-- Python whitespace, as stripped by `str.strip()` / matched by `\s`
(ASCII part; the engine's placeholder and marker texts are ASCII). -/
def isPySpace (c : Char) : Bool :=
  c = ' ' || c = '\t' || c = '\n' || c = '\r' || c = '\x0b' || c = '\x0c'

/-- `str.lstrip()`. -/
def pyStripLeft (cs : List Char) : List Char := cs.dropWhile isPySpace

/-- `str.rstrip()`. -/
def pyStripRight (cs : List Char) : List Char :=
  (cs.reverse.dropWhile isPySpace).reverse

/-- `str.strip()`. -/
def pyStrip (cs : List Char) : List Char := pyStripRight (pyStripLeft cs)

/-- Decimal digit character for `n < 10` (helper for rendering numbers). -/
def digitChar : Nat → Char
  | 0 => '0' | 1 => '1' | 2 => '2' | 3 => '3' | 4 => '4'
  | 5 => '5' | 6 => '6' | 7 => '7' | 8 => '8' | _ => '9'

/-- Decimal rendering of a natural number, most significant digit first.
Fuel-based so that it is structurally recursive; `fuel ≥ 1 + n` always
suffices since `n / 10 < n` for `n ≥ 10`. -/
def natDigitsAux : Nat → Nat → List Char
  | 0, _ => []
  | fuel + 1, n =>
    if n < 10 then [digitChar n]
    else natDigitsAux fuel (n / 10) ++ [digitChar (n % 10)]

/-- Decimal rendering of a natural number (model of Python `str(int)` for
non-negative values). -/
def natDigits (n : Nat) : List Char := natDigitsAux (n + 1) n

/-- Model of Python `str(int)`. -/
def intChars (n : Int) : List Char :=
  if n < 0 then '-' :: natDigits n.natAbs else natDigits n.toNat

/-- String-content escaping performed by `json.dumps(..., ensure_ascii=False)`:
`"` and `\` are escaped, the common control characters use their short
escapes, all other control characters use `\u00xx`, and every other
character is emitted literally. -/
def dumpsEscape : List Char → List Char
  | [] => []
  | c :: rest =>
    (if c = '"' then ['\\', '"']
     else if c = '\\' then ['\\', '\\']
     else if c = '\n' then ['\\', 'n']
     else if c = '\r' then ['\\', 'r']
     else if c = '\t' then ['\\', 't']
     else if c = '\x08' then ['\\', 'b']
     else if c = '\x0c' then ['\\', 'f']
     else if c.toNat < 32 then
       ['\\', 'u', '0', '0', digitChar (c.toNat / 16), hexDigitLow (c.toNat % 16)]
     else [c]) ++ dumpsEscape rest
where
  /-- Lower-case hex digit for `n < 16`. -/
  hexDigitLow : Nat → Char
    | 10 => 'a' | 11 => 'b' | 12 => 'c' | 13 => 'd' | 14 => 'e' | 15 => 'f'
    | n => digitChar n

/-! Model of `json.dumps(v, ensure_ascii=False)` (default separators
`", "` and `": "`), used by the engine to stringify structured values:
`dumps`, `dumpsArr`, `dumpsObj`. -/

mutual
def dumps : JVal → List Char
  | .null => "null".toList
  | .bool true => "true".toList
  | .bool false => "false".toList
  | .num n => intChars n
  | .str s => '"' :: dumpsEscape s.toList ++ ['"']
  | .arr xs => '[' :: dumpsArr xs ++ [']']
  | .obj kvs => '{' :: dumpsObj kvs ++ ['}']
def dumpsArr : JArr → List Char
  | .nil => []
  | .cons v .nil => dumps v
  | .cons v tl => dumps v ++ ',' :: ' ' :: dumpsArr tl
def dumpsObj : JObj → List Char
  | .nil => []
  | .cons k v .nil => '"' :: dumpsEscape k.toList ++ '"' :: ':' :: ' ' :: dumps v
  | .cons k v tl =>
    '"' :: dumpsEscape k.toList ++ '"' :: ':' :: ' ' :: dumps v
      ++ ',' :: ' ' :: dumpsObj tl
end

/-- Model of Python `str(x)` for the scalar values the engine stringifies
(`str(None) = "None"`, `str(True) = "True"`, `str(False) = "False"`,
decimal for ints, identity on strings).  The engine never applies `str`
to dicts/lists (it branches to `json.dumps` first); those cases reuse
`dumps` so the function is total. -/
def pyStr : JVal → List Char
  | .null => ['N', 'o', 'n', 'e']
  | .bool true => ['T', 'r', 'u', 'e']
  | .bool false => ['F', 'a', 'l', 's', 'e']
  | .num n => intChars n
  | .str s => s.toList
  | .arr xs => dumps (.arr xs)
  | .obj kvs => dumps (.obj kvs)

/-! ## Model of `json.loads`

A fuel-based recursive-descent parser for the JSON subset the engine
exchanges with the oracle.  Faithful to Python `json.loads` except:
numbers are integers (no claim involves floats; texts with fractional or
exponent parts simply fail to parse here), leading-zero rejection is not
modelled, and `\uXXXX` surrogate pairs are not recombined.  Object fields
are kept as an ordered association list in textual order; for the
duplicate-free objects every claim quantifies over this coincides with
Python's dict.  Strings reject raw control characters (`strict=True`) and
unknown escapes, as `json.loads` does. -/

/-- JSON whitespace accepted by `json.loads` between tokens. -/
def isJsonWs (c : Char) : Bool := c = ' ' || c = '\t' || c = '\n' || c = '\r'

/-- Hex-digit test, Python `c in '0123456789abcdefABCDEF'`. -/
def isHexChar (c : Char) : Bool :=
  c.isDigit || ('a' ≤ c && c ≤ 'f') || ('A' ≤ c && c ≤ 'F')

/-- Value of a hex digit. -/
def hexVal (c : Char) : Nat :=
  if c.isDigit then c.toNat - 48
  else if 'a' ≤ c && c ≤ 'f' then c.toNat - 87
  else c.toNat - 55

/-- Standard JSON single-character escapes, as decoded by `json.loads`. -/
def escCharVal (c : Char) : Option Char :=
  if c = '"' then some '"'
  else if c = '\\' then some '\\'
  else if c = '/' then some '/'
  else if c = 'b' then some '\x08'
  else if c = 'f' then some '\x0c'
  else if c = 'n' then some '\n'
  else if c = 'r' then some '\r'
  else if c = 't' then some '\t'
  else none

/-- Parse a JSON string body (the opening `"` already consumed): returns
the decoded content and the text after the closing `"`.  Rejects raw
control characters and invalid escapes, as `json.loads` does. -/
def parseStrBody : List Char → Except Unit (List Char × List Char)
  | [] => .error ()
  | c :: rest =>
    if c = '"' then .ok ([], rest)
    else if c = '\\' then
      match rest with
      | [] => .error ()
      | e :: rest2 =>
        if e = 'u' then
          match rest2 with
          | h1 :: h2 :: h3 :: h4 :: rest3 =>
            if isHexChar h1 && isHexChar h2 && isHexChar h3 && isHexChar h4 then
              match parseStrBody rest3 with
              | .ok (s, r) =>
                .ok (Char.ofNat
                  (((hexVal h1 * 16 + hexVal h2) * 16 + hexVal h3) * 16 + hexVal h4) :: s, r)
              | .error er => .error er
            else .error ()
          | _ => .error ()
        else
          match escCharVal e with
          | some d =>
            match parseStrBody rest2 with
            | .ok (s, r) => .ok (d :: s, r)
            | .error er => .error er
          | none => .error ()
    else if c.toNat < 32 then .error ()
    else
      match parseStrBody rest with
      | .ok (s, r) => .ok (c :: s, r)
      | .error e => .error e

/-- Decimal value of a digit character. -/
def digitVal (c : Char) : Nat := c.toNat - 48

/-- Value of a most-significant-first digit list. -/
def digitsVal (ds : List Char) : Nat := ds.foldl (fun acc c => acc * 10 + digitVal c) 0

/-- Parse a JSON number (integer subset; see module comment). -/
def parseJNum (cs : List Char) : Except Unit (JVal × List Char) :=
  match cs with
  | [] => .error ()
  | c :: rest =>
    if c = '-' then
      let ds := rest.takeWhile Char.isDigit
      if ds.isEmpty then .error ()
      else .ok (.num (-(digitsVal ds : Int)), rest.dropWhile Char.isDigit)
    else
      let ds := (c :: rest).takeWhile Char.isDigit
      if ds.isEmpty then .error ()
      else .ok (.num (digitsVal ds), (c :: rest).dropWhile Char.isDigit)

mutual
/-- Parse a JSON value (leading whitespace allowed). -/
def parseJVal : Nat → List Char → Except Unit (JVal × List Char)
  | 0, _ => .error ()
  | fuel + 1, cs =>
    match cs.dropWhile isJsonWs with
    | [] => .error ()
    | c :: rest =>
      if c = '{' then
        match rest.dropWhile isJsonWs with
        | [] =>
          match parseJFields fuel [] with
          | .ok (kvs, r) => .ok (.obj kvs, r)
          | .error e => .error e
        | d :: rest2 =>
          if d = '}' then .ok (.obj .nil, rest2)
          else
            match parseJFields fuel (d :: rest2) with
            | .ok (kvs, r) => .ok (.obj kvs, r)
            | .error e => .error e
      else if c = '[' then
        match rest.dropWhile isJsonWs with
        | [] =>
          match parseJItems fuel [] with
          | .ok (xs, r) => .ok (.arr xs, r)
          | .error e => .error e
        | d :: rest2 =>
          if d = ']' then .ok (.arr .nil, rest2)
          else
            match parseJItems fuel (d :: rest2) with
            | .ok (xs, r) => .ok (.arr xs, r)
            | .error e => .error e
      else if c = '"' then
        match parseStrBody rest with
        | .ok (s, r) => .ok (.str (String.mk s), r)
        | .error e => .error e
      else if c = 't' then
        match rest with
        | 'r' :: 'u' :: 'e' :: rest2 => .ok (.bool true, rest2)
        | _ => .error ()
      else if c = 'f' then
        match rest with
        | 'a' :: 'l' :: 's' :: 'e' :: rest2 => .ok (.bool false, rest2)
        | _ => .error ()
      else if c = 'n' then
        match rest with
        | 'u' :: 'l' :: 'l' :: rest2 => .ok (.null, rest2)
        | _ => .error ()
      else parseJNum (c :: rest)

/-- Parse the items of a non-empty JSON array (after `[` and whitespace). -/
def parseJItems : Nat → List Char → Except Unit (JArr × List Char)
  | 0, _ => .error ()
  | fuel + 1, cs =>
    match parseJVal fuel cs with
    | .error e => .error e
    | .ok (v, rest) =>
      match rest.dropWhile isJsonWs with
      | ',' :: rest2 =>
        match parseJItems fuel rest2 with
        | .ok (tl, r) => .ok (.cons v tl, r)
        | .error e => .error e
      | ']' :: rest2 => .ok (.cons v .nil, rest2)
      | _ => .error ()

/-- Parse the fields of a non-empty JSON object (after `{` and whitespace). -/
def parseJFields : Nat → List Char → Except Unit (JObj × List Char)
  | 0, _ => .error ()
  | fuel + 1, cs =>
    match cs with
    | '"' :: rest =>
      match parseStrBody rest with
      | .error e => .error e
      | .ok (k, rest2) =>
        match rest2.dropWhile isJsonWs with
        | ':' :: rest3 =>
          match parseJVal fuel rest3 with
          | .error e => .error e
          | .ok (v, rest4) =>
            match rest4.dropWhile isJsonWs with
            | ',' :: rest5 =>
              match parseJFields fuel (rest5.dropWhile isJsonWs) with
              | .ok (tl, r) => .ok (.cons (String.mk k) v tl, r)
              | .error e => .error e
            | '}' :: rest5 => .ok (.cons (String.mk k) v .nil, rest5)
            | _ => .error ()
        | _ => .error ()
    | _ => .error ()
end

/-- Model of `json.loads`: parse one value, allow only trailing
whitespace. -/
def loads (cs : List Char) : Except Unit JVal :=
  match parseJVal (2 * cs.length + 2) cs with
  | .error e => .error e
  | .ok (v, rest) => if (rest.dropWhile isJsonWs).isEmpty then .ok v else .error ()

/-! ## `fix_json_string` (llm_provider.py lines 108-177)

Faithful port of the single-pass repair loop.  The Python loop decides
whether a `"` is a string boundary by counting the run of immediately
preceding backslashes in the original text (even run = boundary; the outer
`i == 0 or text[i-1] != '\\' or text[i-2:i] == '\\\\'` guard combined with
the inner parity check is equivalent to plain parity of that run).  The
port carries that run length as the `bs` argument, updated whenever
characters are consumed: a consumed non-backslash resets it, a consumed
backslash extends it (an escape pair `\\` extends it by two, any other
escape pair or a 6-character `\uXXXX` unit ends in a non-backslash and
resets it). -/

/-- The `valid_escapes` set of `fix_json_string` (note that it contains
`u`). -/
def validEscape (c : Char) : Bool :=
  c = '"' || c = '\\' || c = '/' || c = 'b' || c = 'f' || c = 'n' || c = 'r' || c = 't' || c = 'u'

/-- The repair loop of `fix_json_string`; `inStr` is `in_string`, `bs` the
run of backslashes immediately before the cursor (see above). -/
def fixJsonAux : List Char → Bool → Nat → List Char
  | [], _, _ => []
  | c :: rest, inStr, bs =>
    if c = '"' && bs % 2 = 0 then
      c :: fixJsonAux rest (!inStr) 0
    else if inStr && c = '\\' && !rest.isEmpty then
      match rest with
      | [] => []
      | next :: rest2 =>
        if next = 'u' then
          match rest2 with
          | h1 :: h2 :: h3 :: h4 :: rest3 =>
            if isHexChar h1 && isHexChar h2 && isHexChar h3 && isHexChar h4 then
              '\\' :: 'u' :: h1 :: h2 :: h3 :: h4 :: fixJsonAux rest3 inStr 0
            else
              '\\' :: 'u' :: fixJsonAux (h1 :: h2 :: h3 :: h4 :: rest3) inStr 0
          | short =>
            '\\' :: 'u' :: fixJsonAux short inStr 0
        else if validEscape next then
          '\\' :: next :: fixJsonAux rest2 inStr (if next = '\\' then bs + 2 else 0)
        else
          '\\' :: '\\' :: next :: fixJsonAux rest2 inStr 0
    else if inStr then
      if c = '\n' then '\\' :: 'n' :: fixJsonAux rest inStr 0
      else if c = '\r' then '\\' :: 'r' :: fixJsonAux rest inStr 0
      else if c = '\t' then '\\' :: 't' :: fixJsonAux rest inStr 0
      else if c.toNat < 32 then
        '\\' :: 'u' :: '0' :: '0' :: digitChar (c.toNat / 16)
          :: dumpsEscape.hexDigitLow (c.toNat % 16) :: fixJsonAux rest inStr 0
      else c :: fixJsonAux rest inStr (if c = '\\' then bs + 1 else 0)
    else
      c :: fixJsonAux rest inStr (if c = '\\' then bs + 1 else 0)

/-- `fix_json_string` itself. -/
def fixJsonString (cs : List Char) : List Char := fixJsonAux cs false 0

/-! ## `chat_with_json` extraction pass (llm_provider.py lines 94-227) -/

/-- The bracket-matching fallback loop (lines 192-219): scan from the first
`{`, tracking `escape_next` / `in_string`, counting braces outside strings;
returns the number of characters up to and including the brace that brings
the count back to zero, or `none` if the scan exhausts the text. -/
def braceScanAux : List Char → Bool → Bool → Int → Option Nat
  | [], _, _, _ => none
  | c :: rest, escNext, inStr, cnt =>
    if escNext then (braceScanAux rest false inStr cnt).map (· + 1)
    else if c = '\\' then (braceScanAux rest true inStr cnt).map (· + 1)
    else if c = '"' then (braceScanAux rest false (!inStr) cnt).map (· + 1)
    else if !inStr && c = '{' then (braceScanAux rest false inStr (cnt + 1)).map (· + 1)
    else if !inStr && c = '}' then
      if cnt - 1 = 0 then some 1
      else (braceScanAux rest false inStr (cnt - 1)).map (· + 1)
    else (braceScanAux rest false inStr cnt).map (· + 1)

/-- The extraction pass of `chat_with_json` applied to the oracle's raw
response text (the `chat` call itself is abstracted away): strip an opening
fenced-code marker (optionally with the `json` tag) and a closing fence,
run `fix_json_string`, try `json.loads`, and on failure fall back to
bracket-matching from the first `{`.  All exceptions of the fallback are
folded into the final `ValueError` (lines 226-227), modelled by a fixed
error message. -/
def chatWithJsonExtract (response : String) : Except String JVal :=
  let t0 := pyStrip response.toList
  let t1 := if "```json".toList.isPrefixOf t0 then t0.drop 7 else t0
  let t2 := if "```".toList.isPrefixOf t1 then t1.drop 3 else t1
  let t3 := if "```".toList.isSuffixOf t2 then t2.take (t2.length - 3) else t2
  let t4 := pyStrip t3
  let cleaned := fixJsonString t4
  match loads cleaned with
  | .ok v => .ok v
  | .error _ =>
    match List.findIdx? (fun c => c = '{') cleaned with
    | none => .error "Failed to parse JSON response"
    | some start =>
      match braceScanAux (cleaned.drop start) false false 0 with
      | none => .error "Failed to parse JSON response"
      | some n =>
        match loads ((cleaned.drop start).take n) with
        | .ok v => .ok v
        | .error _ => .error "Failed to parse JSON response"

/-! ## Tool registry (tools/base.py) -/

/-- `ToolParameter` (tools/base.py lines 11-19).  `default` and `enum` are
carried for structural fidelity; only `name` and `required` are read by any
registry code path. -/
structure ToolParamM where
  pname : String
  ptype : String := "string"
  description : String := ""
  required : Bool := true
  defaultVal : JVal := .null
  enumVals : Option (List String) := none

/-- `ToolSchema` (tools/base.py lines 22-28); `parameters` is the
insertion-ordered `name → ToolParameter` dict. -/
structure ToolSchemaM where
  name : String
  description : String := ""
  parameters : List ToolParamM
  timeout : Nat := 30

/-- `BaseTool`: a schema plus an `execute(**kwargs)` implementation
(arbitrary behaviour, may raise — modelled as `Except`). -/
structure ToolM where
  schema : ToolSchemaM
  execute : JObj → Except String JVal

/-- `ToolRegistry._tools`: the process-wide `name → tool` dict. -/
def ToolRegistryM := List (String × ToolM)

/-- `BaseTool.validate_parameters` (lines 68-73): raise
`Missing required parameter: <name>` for the first required schema
parameter whose name is not a key of `parameters`. -/
def validateParameters (tool : ToolM) (params : JObj) : Except String Unit :=
  match tool.schema.parameters.find? (fun pd => pd.required && (params.get? pd.pname).isNone) with
  | some pd => .error ("Missing required parameter: " ++ pd.pname)
  | none => .ok ()

/-- `ToolRegistry.get_tool` (lines 87-92). -/
def getTool (reg : ToolRegistryM) (name : String) : Except String ToolM :=
  match List.lookup name reg with
  | none => .error ("Tool '" ++ name ++ "' not found")
  | some t => .ok t

/-- `ToolRegistry.execute_tool` (lines 107-112): look the tool up, validate
required parameters, then call its `execute`.  Note that `execute`'s own
exceptions are not wrapped — they propagate unchanged. -/
def executeTool (reg : ToolRegistryM) (name : String) (params : JObj) : Except String JVal :=
  match getTool reg name with
  | .error e => .error e
  | .ok tool =>
    match validateParameters tool params with
    | .error e => .error e
    | .ok _ => tool.execute params

/-! ## Plan / step data model (models.py) -/

/-- `Step` (models.py). -/
structure StepM where
  step_id : Int
  description : String := ""
  tool : String
  parameters : JObj
  expected_output : String := ""
  dependencies : List Int := []

/-- `Plan` (models.py). -/
structure PlanM where
  task_id : String
  steps : List StepM

/-- `StepResult` (models.py).  `output` is `None` (`JVal.null`) on failure;
wall-clock fields are not modelled. -/
structure StepResultM where
  step_id : Int
  status : String
  output : JVal
  error : Option String := none
deriving DecidableEq

/-- `ExecutionContext` (models.py): `step_results` is the insertion-ordered
`step_id → StepResult` dict, `vars` the `variables` initial-context dict
(renamed: `variables` is reserved in Lean). -/
structure ExecContext where
  task_id : String
  user_input : String
  plan : PlanM
  step_results : List (Int × StepResultM) := []
  vars : JObj := .nil

/-- Model of Python `str(i)` for an int. -/
def intStr (i : Int) : String := String.mk (intChars i)

/-- `ExecutionContext.get_step_output` (models.py lines 115-119). -/
def ExecContext.getStepOutput (ctx : ExecContext) (id : Int) : Except String JVal :=
  match List.lookup id ctx.step_results with
  | none => .error ("Step " ++ intStr id ++ " not executed yet")
  | some r => .ok r.output

/-- Dict assignment `step_results[id] = r` (replace in place or append). -/
def insertResult : List (Int × StepResultM) → Int → StepResultM → List (Int × StepResultM)
  | [], id, r => [(id, r)]
  | (k, v) :: tl, id, r =>
    if k = id then (k, r) :: tl else (k, v) :: insertResult tl id r

/-! ## Reference resolution (executor.py lines 106-187) -/

/-- Scanner state for the model of `re.findall(r'\{\{([^}]+)\}\}', value)`:
outside any candidate, after one `{`, collecting the `[^}]+` group, or
after the first closing `}`. -/
inductive RefScan where
  | out : RefScan
  | one : RefScan
  | coll (acc : List Char) : RefScan
  | close (acc : List Char) : RefScan

/-- Model of `re.findall(r'\{\{([^}]+)\}\}', ·)`: left-to-right,
non-overlapping; on a failed candidate the scan resumes at the character
that broke it (equivalent to the regex engine's restart at the next offset,
since no successful match can begin strictly inside a failed candidate —
any such start would hit the same single `}`). -/
def findRefsAux : List Char → RefScan → List (List Char)
  | [], _ => []
  | c :: rest, .out => findRefsAux rest (if c = '{' then .one else .out)
  | c :: rest, .one => findRefsAux rest (if c = '{' then .coll [] else .out)
  | c :: rest, .coll acc =>
    if c = '}' then
      if acc.isEmpty then findRefsAux rest .out else findRefsAux rest (.close acc)
    else findRefsAux rest (.coll (acc ++ [c]))
  | c :: rest, .close acc =>
    if c = '}' then acc :: findRefsAux rest .out
    else if c = '{' then findRefsAux rest .one
    else findRefsAux rest .out

/-- All `{{...}}` reference groups of a value, in order. -/
def findRefs (cs : List Char) : List (List Char) := findRefsAux cs .out

/-- Model of Python `str.replace` (left-to-right, non-overlapping).  The
engine only calls it with the non-empty pattern `{{...}}`; fuel is the text
length, which suffices since every step consumes at least one character. -/
def replaceAux : Nat → List Char → List Char → List Char → List Char
  | 0, text, _, _ => text
  | _, [], _, _ => []
  | fuel + 1, c :: rest, pat, repl =>
    if pat.isPrefixOf (c :: rest) && !pat.isEmpty then
      repl ++ replaceAux fuel ((c :: rest).drop pat.length) pat repl
    else c :: replaceAux fuel rest pat repl

/-- `text.replace(pat, repl)` for non-empty `pat`. -/
def pyReplace (text pat repl : List Char) : List Char :=
  replaceAux text.length text pat repl

/-- Model of Python `int(s)`: strip whitespace, optional sign, decimal
digits.  (Underscored literals are not modelled; no engine text contains
them.) -/
def pyInt (cs : List Char) : Except String Int :=
  let t := pyStrip cs
  let core : List Char := match t with
    | '-' :: ds => ds
    | '+' :: ds => ds
    | ds => ds
  if core.isEmpty || !core.all Char.isDigit then
    .error ("invalid literal for int() with base 10: '" ++ String.mk cs ++ "'")
  else
    match t with
    | '-' :: _ => .ok (-(digitsVal core : Int))
    | _ => .ok (digitsVal core)

/-- Python `ref.split('.')` (non-empty separator; `""` splits to `[""]`). -/
def splitDot : List Char → List (List Char)
  | [] => [[]]
  | c :: rest =>
    if c = '.' then [] :: splitDot rest
    else
      match splitDot rest with
      | hd :: tl => (c :: hd) :: tl
      | [] => [[c]]

/-- Python `'.'.join(parts)`. -/
def joinDot : List (List Char) → List Char
  | [] => []
  | [p] => p
  | p :: ps => p ++ '.' :: joinDot ps

/-- The nested-path walk of `_get_reference_value` (executor.py lines
170-178): every `output` segment is skipped, other segments are
`dict.get` lookups (missing key gives `None`), and a lookup on a non-dict
value raises. -/
def walkPath : JVal → List (List Char) → Except String JVal
  | value, [] => .ok value
  | value, part :: rest =>
    if part = "output".toList then walkPath value rest
    else
      match value with
      | .obj kvs => walkPath ((kvs.get? (String.mk part)).getD .null) rest
      | _ => .error ("Cannot access '" ++ String.mk part ++ "' on non-dict value")

/-- `Executor._get_reference_value` (executor.py lines 161-187). -/
def getReferenceValue (ctx : ExecContext) (ref : String) : Except String JVal :=
  match splitDot ref.toList with
  | [] => .error ("Invalid reference format: " ++ ref)
  | p0 :: rest =>
    if "step_".toList.isPrefixOf p0 then
      match pyInt (pyReplace p0 "step_".toList []) with
      | .error e => .error e
      | .ok id =>
        match ctx.getStepOutput id with
        | .error e => .error e
        | .ok v => walkPath v rest
    else if p0 = "variables".toList then
      .ok ((ctx.vars.get? (String.mk (joinDot rest))).getD .null)
    else .error ("Invalid reference format: " ++ ref)

/-- The embedded-substitution loop of `_resolve_value` (executor.py lines
148-159): for each match, resolve it, stringify (`json.dumps` for
dicts/lists, `str` otherwise) and replace every occurrence of the
placeholder in the accumulated string. -/
def resolveEmbedded (ctx : ExecContext) : List (List Char) → List Char → Except String (List Char)
  | [], result => .ok result
  | m :: ms, result =>
    match getReferenceValue ctx (String.mk (pyStrip m)) with
    | .error e => .error e
    | .ok rv =>
      let rs : List Char :=
        match rv with
        | .obj _ => dumps rv
        | .arr _ => dumps rv
        | _ => pyStr rv
      resolveEmbedded ctx ms (pyReplace result ('{' :: '{' :: (m ++ ['}', '}'])) rs)

/-- `Executor._resolve_value` (executor.py lines 135-159): no placeholder
returns the string unchanged; a value that is exactly one placeholder
(after stripping) returns the referenced value as-is, type preserved;
otherwise each placeholder is stringified and substituted. -/
def resolveValue (ctx : ExecContext) (value : String) : Except String JVal :=
  match findRefs value.toList with
  | [] => .ok (.str value)
  | m :: ms =>
    if pyStrip value.toList = '{' :: '{' :: (m ++ ['}', '}']) then
      getReferenceValue ctx (String.mk (pyStrip m))
    else
      match resolveEmbedded ctx (m :: ms) value.toList with
      | .ok out => .ok (.str (String.mk out))
      | .error e => .error e

/-! `Executor._resolve_parameters` (executor.py lines 106-133): resolve
string values, recurse into dict values, and map `_resolve_value` over the
string elements of list values (non-string list elements pass through
unchanged). -/

mutual
/-- The dict walk of `_resolve_parameters`. -/
def resolveParameters (ctx : ExecContext) : JObj → Except String JObj
  | .nil => .ok .nil
  | .cons k v tl =>
    match resolveParamValue ctx v with
    | .error e => .error e
    | .ok v' =>
      match resolveParameters ctx tl with
      | .ok tl' => .ok (.cons k v' tl')
      | .error e => .error e

/-- Per-value branch of `_resolve_parameters`. -/
def resolveParamValue (ctx : ExecContext) : JVal → Except String JVal
  | .str s => resolveValue ctx s
  | .obj kvs =>
    match resolveParameters ctx kvs with
    | .ok kvs' => .ok (.obj kvs')
    | .error e => .error e
  | .arr xs =>
    match resolveListItems ctx xs with
    | .ok xs' => .ok (.arr xs')
    | .error e => .error e
  | other => .ok other

/-- The list comprehension of `_resolve_parameters` (lines 124-129): only
string items are resolved; any other item is kept as-is. -/
def resolveListItems (ctx : ExecContext) : JArr → Except String JArr
  | .nil => .ok .nil
  | .cons x tl =>
    match (match x with
           | .str s => resolveValue ctx s
           | other => .ok other) with
    | .error e => .error e
    | .ok x' =>
      match resolveListItems ctx tl with
      | .ok tl' => .ok (.cons x' tl')
      | .error e => .error e
end

/-! ## Linear executor (executor.py lines 20-104, 189-202) -/

/-- The `try` body of `Executor._execute_step`: resolve the step's
parameters against the context, then dispatch through
`ToolRegistry.execute_tool`. -/
def executeStepE (reg : ToolRegistryM) (step : StepM) (ctx : ExecContext) : Except String JVal :=
  match resolveParameters ctx step.parameters with
  | .error e => .error e
  | .ok resolved => executeTool reg step.tool resolved

/-- `Executor._execute_step`: success wraps the tool output, any exception
is caught into a `failed` `StepResult` carrying `str(e)`. -/
def executeStep (reg : ToolRegistryM) (step : StepM) (ctx : ExecContext) : StepResultM :=
  match executeStepE reg step ctx with
  | .ok out => { step_id := step.step_id, status := "success", output := out }
  | .error e => { step_id := step.step_id, status := "failed", output := .null, error := some e }

/-- The run-level result dict of `execute_plan`: `result` is
`(final_output, steps_executed)` of `_generate_final_output`
(`execution_time` is wall-clock and not modelled). -/
structure RunResultM where
  status : String
  task_id : String
  error : Option String := none
  result : Option (JVal × Nat) := none
  context : ExecContext

/-- `_generate_final_output` (executor.py lines 189-202): output of the
step with the numerically largest id, plus the executed-step count. -/
def genFinalOutput (ctx : ExecContext) : Option (JVal × Nat) :=
  match ctx.step_results with
  | [] => none
  | (k, _) :: tl =>
    let lastId := tl.foldl (fun acc p => max acc p.1) k
    some (((List.lookup lastId ctx.step_results).map (·.output)).getD .null,
          ctx.step_results.length)

/-- The step loop of `execute_plan` (executor.py lines 41-67). -/
def execSteps (reg : ToolRegistryM) (plan : PlanM) : List StepM → ExecContext → RunResultM
  | [], ctx =>
    { status := "completed", task_id := plan.task_id, result := genFinalOutput ctx, context := ctx }
  | step :: rest, ctx =>
    let r := executeStep reg step ctx
    let ctx' := { ctx with step_results := insertResult ctx.step_results r.step_id r }
    if r.status = "failed" then
      { status := "failed", task_id := plan.task_id,
        error := some ("Step " ++ intStr step.step_id ++ " failed: " ++ r.error.getD "None"),
        context := ctx' }
    else execSteps reg plan rest ctx'

/-- `Executor.execute_plan` (executor.py lines 20-67). -/
def executePlan (reg : ToolRegistryM) (plan : PlanM) (user_input : String)
    (initial : JObj := .nil) : RunResultM :=
  execSteps reg plan plan.steps
    { task_id := plan.task_id, user_input := user_input, plan := plan, vars := initial }

/-! ## ReAct agent (react_agent.py)

The reasoning oracle (`self.llm.chat`) is modelled as a scripted oracle
`Nat → Except String String`, keyed by the 1-based loop iteration: the
source calls `chat` exactly once per iteration, so a scripted oracle's
reply depends only on the call ordinal; an `error` models a raising `chat`
call (the only exception source in the outer `try`, since all parsing
below is total and tool failures are caught by the inner `try`). -/

/-- ASCII lower-casing (the markers matched with `re.IGNORECASE` are
ASCII). -/
def lowerChar (c : Char) : Char :=
  if 'A' ≤ c && c ≤ 'Z' then Char.ofNat (c.toNat + 32) else c

/-- Case-insensitive "pattern (already lower-case) occurs here" test. -/
def ciIsPrefix : List Char → List Char → Bool
  | [], _ => true
  | _ :: _, [] => false
  | p :: ps, c :: cs => p = lowerChar c && ciIsPrefix ps cs

/-- Case-insensitive first-occurrence search; returns the text after the
pattern. -/
def ciFindRest (pat : List Char) : List Char → Option (List Char)
  | [] => if pat.isEmpty then some [] else none
  | c :: rest =>
    if ciIsPrefix pat (c :: rest) then some ((c :: rest).drop pat.length)
    else ciFindRest pat rest

/-- Case-insensitive first-occurrence search; returns the start index. -/
def ciFindIdx (pat : List Char) : List Char → Option Nat
  | [] => if pat.isEmpty then some 0 else none
  | c :: rest =>
    if ciIsPrefix pat (c :: rest) then some 0
    else (ciFindIdx pat rest).map (· + 1)

/-- Python `str.find(ch, start)` for a single character. -/
def findIdxFrom (cs : List Char) (start : Nat) (c : Char) : Option Nat :=
  (List.findIdx? (fun x => x = c) (cs.drop start)).map (· + start)

/-- ASCII `\w` (the engine's tool names are ASCII identifiers). -/
def isWordChar (c : Char) : Bool := c.isAlphanum || c = '_'

/-- Model of `re.search(r'Action:\s*(\w+)', output, IGNORECASE)` (line
311): at each occurrence of `action:` try to read whitespace then a
non-empty word; on failure the engine's regex resumes at the next offset,
which reduces to trying the next `action:` occurrence. -/
def findActionTok : List Char → Option String
  | [] => none
  | c :: rest =>
    if ciIsPrefix "action:".toList (c :: rest) then
      let w := (((c :: rest).drop 7).dropWhile isPySpace).takeWhile isWordChar
      if w.isEmpty then findActionTok rest else some (String.mk w)
    else findActionTok rest

/-- Prefix of a text up to and including its first `}`. -/
def upToRbraceIncl : List Char → Option (List Char)
  | [] => none
  | '}' :: _ => some ['}']
  | c :: rest => (upToRbraceIncl rest).map (c :: ·)

/-- Model of `re.search(r'Action Input:\s*(\{.+?\})', output,
DOTALL | IGNORECASE)` (line 316): after the marker and whitespace the
group is a `{`, at least one arbitrary character, then the first `}`
after that (non-greedy `.+?`). -/
def findAIGroup : List Char → Option (List Char)
  | [] => none
  | c :: rest =>
    if ciIsPrefix "action input:".toList (c :: rest) then
      match ((c :: rest).drop 13).dropWhile isPySpace with
      | '{' :: c0 :: inner =>
        match upToRbraceIncl inner with
        | some mid => some ('{' :: c0 :: mid)
        | none => findAIGroup rest
      | _ => findAIGroup rest
    else findAIGroup rest

/-- The lenient brace matcher of the `Action Input` fallback (lines
329-337): plain open/close counting with no string tracking, from a `{`;
returns the length up to and including the brace closing the count. -/
def plainBraceScan : List Char → Int → Option Nat
  | [], _ => none
  | c :: rest, cnt =>
    if c = '{' then (plainBraceScan rest (cnt + 1)).map (· + 1)
    else if c = '}' then
      if cnt - 1 = 0 then some 1 else (plainBraceScan rest (cnt - 1)).map (· + 1)
    else (plainBraceScan rest cnt).map (· + 1)

/-- The `Action Input` decoding of `_parse_llm_output` (lines 316-342):
try `json.loads` on the regex group; on failure, re-find `{` after the
(first, lower-cased) `action input` occurrence, brace-match leniently and
`json.loads` the slice; any failure is swallowed, leaving `{}`.
(Python's `find('{', -1)` wrap-around start for a missing marker is
modelled as `length - 1`; the fallback is only reached when the marker is
present.) -/
def parseActionInput (out : List Char) : JObj :=
  match findAIGroup out with
  | none => .nil
  | some grp =>
    match loads grp with
    | .ok (.obj kvs) => kvs
    | _ =>
      let start := (ciFindIdx "action input".toList out).getD (out.length - 1)
      match findIdxFrom out start '{' with
      | none => .nil
      | some js =>
        match plainBraceScan (out.drop js) 0 with
        | none => .nil
        | some n =>
          match loads ((out.drop js).take n) with
          | .ok (.obj kvs) => kvs
          | _ => .nil

/-- The lookahead `(?=\n(?:Action|Final Answer)|\Z)` of the `Thought`
regex. -/
def thoughtStop (cs : List Char) : Bool :=
  match cs with
  | '\n' :: rest =>
    ciIsPrefix "action".toList rest || ciIsPrefix "final answer".toList rest
  | _ => false

/-- Characters up to the first lookahead stop (or the end of text). -/
def takeToStop : List Char → List Char
  | [] => []
  | c :: rest => if thoughtStop (c :: rest) then [] else c :: takeToStop rest

/-- Model of the `Thought:\s*(.+?)(?=\n(?:Action|Final Answer)|\Z)`
extraction (line 300), followed by `.strip()`.  (Greedy-`\s*` /
non-greedy-capture backtracking corner cases over all-whitespace captures
are smoothed by the final strip; no claim reads the thought text.) -/
def extractThought (out : List Char) : String :=
  match ciFindRest "thought:".toList out with
  | none => ""
  | some rest =>
    match rest.dropWhile isPySpace with
    | [] => ""
    | c :: more => String.mk (pyStrip (c :: takeToStop more))

/-- The dict returned by `_parse_llm_output` (lines 292-344). -/
structure ParsedOutput where
  thought : String
  action : Option String
  action_input : JObj
  final_answer : Option String

/-- `ReActAgent._parse_llm_output` (lines 282-344).  The `Final Answer`
branch models `re.search(r'Final Answer:\s*(.+?)$', output,
DOTALL | IGNORECASE)` followed by `.strip()`: with `DOTALL` and no
`MULTILINE`, `$` matches only at the end of the text (or before a single
terminal newline), so the stripped group equals the stripped text after
the first (case-insensitive) marker occurrence; when that text is all
whitespace the group strips to the empty string, which the caller's
truthiness test rejects, in both the regex and this model.  When a final
answer is found the function returns early, leaving `action = None`. -/
def parseLLMOutput (out : String) : ParsedOutput :=
  let cs := out.toList
  let thought := extractThought cs
  match ciFindRest "final answer:".toList cs with
  | some rest =>
    { thought, action := none, action_input := .nil,
      final_answer := some (String.mk (pyStrip rest)) }
  | none =>
    { thought, action := findActionTok cs, action_input := parseActionInput cs,
      final_answer := none }

/-- Python truthiness of `parsed.get("final_answer")` (`None` and the
empty string are falsy). -/
def truthyStr : Option String → Bool
  | none => false
  | some s => s ≠ ""

/-- `ReActStep` (react_agent.py lines 16-36; timestamp not modelled). -/
structure ReActStepM where
  step_num : Nat
  thought : String
  action : Option String := none
  action_input : Option JObj := none
  observation : Option String := none
  error : Option String := none

/-- `ReActResult` (lines 39-63; times not modelled).  `oracle_calls` is
embedding instrumentation counting `self.llm.chat` invocations. -/
structure ReActResultM where
  task_id : String
  user_input : String
  status : String
  final_answer : Option String := none
  steps : List ReActStepM := []
  total_iterations : Nat := 0
  error : Option String := none
  oracle_calls : Nat := 0

/-- Observation formatting (lines 170-177): `json.dumps` for dicts,
`str` otherwise, truncated at 3000 characters.  (The `indent=2` pretty
layout is modelled by the compact `dumps`; no claim reads observation
text.) -/
def formatObservation (v : JVal) : String :=
  let s := match v with
    | .obj _ => String.mk (dumps v)
    | other => String.mk (pyStr other)
  if s.length > 3000 then String.mk (s.toList.take 3000) ++ "\n... (结果已截断)" else s

/-- One transcript message (role, content). -/
abbrev ChatMsg := String × String

/-- The `while iteration < self.max_iterations` loop of `ReActAgent.run`
(lines 109-216), with `remaining = max_iterations - iteration` as fuel.
On a raising oracle call the partial result is returned with status
`failed` (and `total_iterations` left at its dataclass default `0`, as in
the source).  A missing action appends the corrective instruction and
consumes the iteration without recording a step. -/
def runReActAux (task_id user_input : String) (oracle : Nat → Except String String)
    (reg : ToolRegistryM) (maxIter : Nat) :
    Nat → Nat → List ChatMsg → List ReActStepM → Nat → ReActResultM
  | 0, iteration, _msgs, steps, calls =>
    { task_id, user_input, status := "max_iterations", steps,
      total_iterations := iteration,
      error := some ("达到最大迭代次数 (" ++ String.mk (natDigits maxIter) ++ ")，任务未完成"),
      oracle_calls := calls }
  | rem + 1, iteration, msgs, steps, calls =>
    let iter' := iteration + 1
    match oracle iter' with
    | .error e =>
      { task_id, user_input, status := "failed",
        steps := steps ++ [{ step_num := iter', thought := "", error := some e }],
        total_iterations := 0, error := some e, oracle_calls := calls + 1 }
    | .ok resp =>
      let parsed := parseLLMOutput resp
      if truthyStr parsed.final_answer then
        let fa := parsed.final_answer.getD ""
        { task_id, user_input, status := "completed", final_answer := some fa,
          steps := steps ++ [{ step_num := iter', thought := parsed.thought,
                               observation := some ("任务完成: " ++ fa) }],
          total_iterations := iter', oracle_calls := calls + 1 }
      else
        match parsed.action with
        | none =>
          runReActAux task_id user_input oracle reg maxIter rem iter'
            (msgs ++ [("assistant", resp),
                      ("user", "请按照格式要求，输出 Thought、Action、Action Input，或者如果任务已完成，输出 Final Answer。")])
            steps (calls + 1)
        | some act =>
          let ai := parsed.action_input
          let obsErr : String × Option String :=
            match executeTool reg act ai with
            | .ok v => (formatObservation v, none)
            | .error e => ("工具执行失败: " ++ e, some e)
          runReActAux task_id user_input oracle reg maxIter rem iter'
            (msgs ++ [("assistant", resp),
                      ("user", "Observation: " ++ obsErr.1 ++ "\n\n请根据上述观察结果，继续思考下一步行动，或者如果任务已完成，给出最终答案。")])
            (steps ++ [{ step_num := iter', thought := parsed.thought, action := some act,
                         action_input := some ai, observation := some obsErr.1,
                         error := obsErr.2 }])
            (calls + 1)

/-- `_build_initial_messages` (lines 267-280). -/
def initialMessages (user_input : String) (initial_context : Option JObj) : List ChatMsg :=
  let contextStr := match initial_context with
    | some kvs => "\n\n初始上下文:\n" ++ String.mk (dumps (.obj kvs))
    | none => ""
  [("user", "请帮我完成以下任务：\n\n" ++ user_input ++ contextStr ++ "\n\n请开始你的思考和行动。")]

/-- `ReActAgent.run` (lines 87-216). -/
def runReAct (oracle : Nat → Except String String) (reg : ToolRegistryM) (maxIter : Nat)
    (task_id user_input : String) (initial_context : Option JObj := none) : ReActResultM :=
  runReActAux task_id user_input oracle reg maxIter maxIter 0
    (initialMessages user_input initial_context) [] 0

/-! ## Shared concrete fixtures (used by witnesses and counterexamples) -/

/-- Substring occurrence test (for stating what an error message does not
contain). -/
def hasSubstr (pat : List Char) : List Char → Bool
  | [] => pat.isEmpty
  | c :: rest => pat.isPrefixOf (c :: rest) || hasSubstr pat rest

/-- A tool with one required parameter `x` that succeeds. -/
def wtOk : ToolM :=
  { schema := { name := "t1", parameters := [{ pname := "x" }] },
    execute := fun _ => .ok (.str "done") }

/-- A tool with no parameters whose `execute` raises `boom`. -/
def wtBoom : ToolM :=
  { schema := { name := "mytool", parameters := [] },
    execute := fun _ => .error "boom" }

/-- A two-tool registry. -/
def wtReg : ToolRegistryM := [("t1", wtOk), ("mytool", wtBoom)]

/-- The execution context built by `execute_plan` before any step runs,
extended with an explicit result log (used to phrase hypotheses about
intermediate states). -/
def mkCtx (task uin : String) (steps : List StepM) (init : JObj)
    (results : List (Int × StepResultM)) : ExecContext :=
  { task_id := task, user_input := uin, plan := { task_id := task, steps := steps },
    step_results := results, vars := init }

/-! ## Round-trip infrastructure for the decoder claims

`fuelV`/`fuelA`/`fuelO` measure the parser fuel needed to re-parse
`dumps v`; `wfV`/`wfA`/`wfO` state that every object in a value has
duplicate-free keys, the invariant every value produced by Python's
`json.dumps` of a `dict` satisfies (on such values the ordered
association-list model coincides with Python dicts). -/

/-- The head of the list (if any) does not satisfy `p`. -/
def headNotSat (p : Char → Bool) : List Char → Bool
  | [] => true
  | c :: _ => !p c

mutual
def fuelV : JVal → Nat
  | .null => 1
  | .bool _ => 1
  | .num _ => 1
  | .str _ => 1
  | .arr xs => 1 + fuelA xs
  | .obj kvs => 1 + fuelO kvs
def fuelA : JArr → Nat
  | .nil => 1
  | .cons v tl => 1 + fuelV v + fuelA tl
def fuelO : JObj → Nat
  | .nil => 1
  | .cons _ v tl => 1 + fuelV v + fuelO tl
end

mutual
def wfV : JVal → Bool
  | .null => true
  | .bool _ => true
  | .num _ => true
  | .str _ => true
  | .arr xs => wfA xs
  | .obj kvs => wfO kvs
def wfA : JArr → Bool
  | .nil => true
  | .cons v tl => wfV v && wfA tl
def wfO : JObj → Bool
  | .nil => true
  | .cons k v tl => !(JObj.get? tl k).isSome && wfV v && wfO tl
end

/-! ## Claims C7 and C8 (tool registry) -/

/-- C7: invoking an unregistered tool name fails with the `ToolNotFound`
error (`Tool '<name>' not found`); invoking a registered tool whose
parameter mapping is missing a required parameter fails with the
`MissingParameter` error naming that parameter (the first missing one in
schema order, mirroring the validation loop).  The conclusion holds for
every registry and hence for every `execute` behaviour of the registered
tool, so the tool's `execute` is never called. -/
theorem claim_C7 (reg : ToolRegistryM) (name : String) (params : JObj) :
    (List.lookup name reg = none →
      executeTool reg name params = .error ("Tool '" ++ name ++ "' not found")) ∧
    (∀ tool pd, List.lookup name reg = some tool →
      tool.schema.parameters.find?
          (fun q => q.required && (params.get? q.pname).isNone) = some pd →
      executeTool reg name params = .error ("Missing required parameter: " ++ pd.pname)) := by
  constructor
  · intro h
    simp [executeTool, getTool, h]
  · intro tool pd h1 h2
    simp [executeTool, getTool, h1, validateParameters, h2]

/-- Witness for C7 at a concrete registry: `nosuch` is unregistered, and
`t1` is invoked without its required parameter `x`. -/
theorem claim_C7_witness :
    executeTool wtReg "nosuch" .nil = .error "Tool 'nosuch' not found" ∧
    executeTool wtReg "t1" .nil = .error "Missing required parameter: x" := by
  refine ⟨(claim_C7 wtReg "nosuch" .nil).1 rfl, ?_⟩
  exact (claim_C7 wtReg "t1" .nil).2 wtOk { pname := "x" } rfl rfl

/-- C8 counterexample: `mytool`'s `execute` raises `boom`; the registry
propagates exactly the raw message `boom`, which does not mention the tool
name `mytool` — so the failure is not wrapped in a `ToolExecutionError`
carrying the tool name and original message, contrary to the claim. -/
theorem claim_C8_counterexample :
    executeTool wtReg "mytool" .nil = .error "boom" ∧
    hasSubstr "mytool".toList "boom".toList = false := by
  exact ⟨rfl, by decide⟩

/-- C8 as amended: when a registered tool's `execute` raises, the registry
propagates the exception unchanged (the raw error escapes; no wrapping
takes place). -/
theorem claim_C8 (reg : ToolRegistryM) (name : String) (params : JObj)
    (tool : ToolM) (e : String)
    (h1 : List.lookup name reg = some tool)
    (h2 : tool.schema.parameters.find?
        (fun q => q.required && (params.get? q.pname).isNone) = none)
    (h3 : tool.execute params = .error e) :
    executeTool reg name params = .error e := by
  simp [executeTool, getTool, h1, validateParameters, h2, h3]

/-- Witness for the amended C8. -/
theorem claim_C8_witness : executeTool wtReg "mytool" .nil = .error "boom" :=
  claim_C8 wtReg "mytool" .nil wtBoom "boom" rfl rfl rfl

/-! ## Claim C2 (linear executor fail-fast) -/

/-- The `StepResult` recorded for a successful step. -/
def successRes (step : StepM) (out : JVal) : StepResultM :=
  { step_id := step.step_id, status := "success", output := out }

/-- The `StepResult` recorded for a failed step. -/
def failedRes (step : StepM) (e : String) : StepResultM :=
  { step_id := step.step_id, status := "failed", output := .null, error := some e }

/-- C2: for a 3-step plan whose first step succeeds and whose second step's
resolution-or-invocation raises, `execute_plan` returns status `failed`
with an error naming step 2's id, the result log contains exactly the
step-1 and step-2 results, and step 3's id is absent from the log (it is
never attempted). -/
theorem claim_C2 (reg : ToolRegistryM) (task uin : String) (init : JObj)
    (s1 s2 s3 : StepM) (out1 : JVal) (e : String)
    (h12 : s1.step_id ≠ s2.step_id) (h13 : s1.step_id ≠ s3.step_id)
    (h23 : s2.step_id ≠ s3.step_id)
    (h1 : executeStepE reg s1 (mkCtx task uin [s1, s2, s3] init []) = .ok out1)
    (h2 : executeStepE reg s2
        (mkCtx task uin [s1, s2, s3] init
          [(s1.step_id, successRes s1 out1)]) = .error e) :
    (executePlan reg { task_id := task, steps := [s1, s2, s3] } uin init).status = "failed" ∧
    (executePlan reg { task_id := task, steps := [s1, s2, s3] } uin init).error
      = some ("Step " ++ intStr s2.step_id ++ " failed: " ++ e) ∧
    (executePlan reg { task_id := task, steps := [s1, s2, s3] } uin init).context.step_results
      = [(s1.step_id, successRes s1 out1), (s2.step_id, failedRes s2 e)] ∧
    List.lookup s1.step_id
      (executePlan reg { task_id := task, steps := [s1, s2, s3] } uin init).context.step_results
      = some (successRes s1 out1) ∧
    List.lookup s2.step_id
      (executePlan reg { task_id := task, steps := [s1, s2, s3] } uin init).context.step_results
      = some (failedRes s2 e) ∧
    List.lookup s3.step_id
      (executePlan reg { task_id := task, steps := [s1, s2, s3] } uin init).context.step_results
      = none := by
  have e21 : (s2.step_id == s1.step_id) = false := beq_eq_false_iff_ne.mpr (Ne.symm h12)
  have e31 : (s3.step_id == s1.step_id) = false := beq_eq_false_iff_ne.mpr (Ne.symm h13)
  have e32 : (s3.step_id == s2.step_id) = false := beq_eq_false_iff_ne.mpr (Ne.symm h23)
  have e11 : (s1.step_id == s1.step_id) = true := beq_self_eq_true _
  have e22 : (s2.step_id == s2.step_id) = true := beq_self_eq_true _
  simp only [mkCtx, successRes, failedRes] at h1 h2 ⊢
  simp only [executePlan, execSteps, executeStep, insertResult, h1, h2, List.lookup,
    e21, e31, e32, e11, e22, if_neg h12, if_neg (Ne.symm h12)]
  simp [insertResult, if_neg (Ne.symm h12)]

/-- Concrete step 1 (succeeds through `t1`). -/
def wtStep1 : StepM := { step_id := 1, tool := "t1", parameters := .cons "x" (.num 1) .nil }

/-- Concrete step 2 (its tool raises `boom`). -/
def wtStep2 : StepM := { step_id := 2, tool := "mytool", parameters := .nil }

/-- Concrete step 3 (would succeed, but is never attempted). -/
def wtStep3 : StepM := { step_id := 3, tool := "t1", parameters := .cons "x" (.num 2) .nil }

/-- Witness for C2 at a concrete 3-step plan whose step 2 raises. -/
theorem claim_C2_witness :
    (executePlan wtReg { task_id := "T", steps := [wtStep1, wtStep2, wtStep3] } "go" .nil).status
      = "failed" ∧
    (executePlan wtReg { task_id := "T", steps := [wtStep1, wtStep2, wtStep3] } "go" .nil).error
      = some "Step 2 failed: boom" ∧
    List.lookup 3
      (executePlan wtReg { task_id := "T", steps := [wtStep1, wtStep2, wtStep3] } "go" .nil).context.step_results
      = none := by
  have h := claim_C2 wtReg "T" "go" .nil wtStep1 wtStep2 wtStep3 (.str "done") "boom"
    (by decide) (by decide) (by decide) rfl rfl
  exact ⟨h.1, h.2.1, h.2.2.2.2.2⟩

/-! ## Claim C9 (recursive placeholder substitution) -/

/-- A context whose `variables` map `x` to `"v"`. -/
def c9Ctx : ExecContext := mkCtx "t" "u" [] (.cons "x" (.str "v") .nil) []

/-- A parameters mapping whose only value is a sequence containing one
mapping, which contains a placeholder. -/
def c9Params : JObj :=
  .cons "a" (.arr (.cons (.obj (.cons "b" (.str "{{variables.x}}") .nil)) .nil)) .nil

/-- C9 counterexample: a placeholder inside a mapping that is itself an
element of a sequence is NOT substituted — `_resolve_parameters` returns
the mapping unchanged, still containing the literal placeholder, even
though the reference resolves to `"v"` in this context.  This refutes the
claim that substitution recurses through mapping elements of sequences. -/
theorem claim_C9_counterexample :
    resolveParameters c9Ctx c9Params = .ok c9Params ∧
    getReferenceValue c9Ctx "variables.x" = .ok (.str "v") ∧
    c9Params ≠
      .cons "a" (.arr (.cons (.obj (.cons "b" (.str "v") .nil)) .nil)) .nil := by
  exact ⟨rfl, rfl, by decide⟩

/-- C9 as amended: `_resolve_parameters` substitutes placeholders in
string values, recurses into nested mappings, and resolves the string
elements of sequences — but a mapping that is an element of a sequence is
returned unchanged, whatever placeholders it contains. -/
theorem claim_C9 (ctx : ExecContext) (k k2 s : String) (d : JObj) :
    (resolveParameters ctx (.cons k (.obj (.cons k2 (.str s) .nil)) .nil)
      = (resolveValue ctx s).map (fun v => .cons k (.obj (.cons k2 v .nil)) .nil)) ∧
    (resolveParameters ctx (.cons k (.arr (.cons (.str s) .nil)) .nil)
      = (resolveValue ctx s).map (fun v => .cons k (.arr (.cons v .nil)) .nil)) ∧
    (resolveParameters ctx (.cons k (.arr (.cons (.obj d) .nil)) .nil)
      = .ok (.cons k (.arr (.cons (.obj d) .nil)) .nil)) := by
  refine ⟨?_, ?_, ?_⟩
  · simp only [resolveParameters, resolveParamValue, resolveListItems]
    cases resolveValue ctx s <;> simp [resolveParameters, Except.map]
  · simp only [resolveParameters, resolveParamValue, resolveListItems]
    cases resolveValue ctx s <;> simp [resolveParameters, resolveListItems, Except.map]
  · simp [resolveParameters, resolveParamValue, resolveListItems]

/-! ## Claim C3 (Final Answer termination) -/

/-- A scripted oracle whose first response carries content after the
`Final Answer: 42` marker. -/
def c3Oracle : Nat → Except String String :=
  fun _ => .ok "Final Answer: 42\nAction: search"

/-- C3 counterexample: the first response contains the marker
`Final Answer: 42` (here with an `Action` after it), and the run does
terminate on iteration 1 with status `completed` — but `final_answer` is
the whole stripped text after the marker, `"42\nAction: search"`, not
`"42"` as the claim states. -/
theorem claim_C3_counterexample :
    hasSubstr "Final Answer: 42".toList "Final Answer: 42\nAction: search".toList = true ∧
    (runReAct c3Oracle wtReg 10 "tid" "task").status = "completed" ∧
    (runReAct c3Oracle wtReg 10 "tid" "task").total_iterations = 1 ∧
    (runReAct c3Oracle wtReg 10 "tid" "task").final_answer = some "42\nAction: search" ∧
    (runReAct c3Oracle wtReg 10 "tid" "task").final_answer ≠ some "42" := by
  exact ⟨by decide, rfl, rfl, rfl, by decide⟩

/-- C3 as amended: whenever the first response contains the
(case-insensitive) `Final Answer:` marker and the text from the first
marker occurrence to the end of the response strips to exactly `42`,
`run()` terminates on iteration 1 with status `completed`,
`final_answer = "42"` and `total_iterations = 1` (one oracle call),
regardless of any content before the marker (such as an `Action`). -/
theorem claim_C3 (oracle : Nat → Except String String) (reg : ToolRegistryM)
    (maxIter : Nat) (task uin : String) (r : String) (rest : List Char)
    (hmax : 1 ≤ maxIter)
    (h1 : oracle 1 = .ok r)
    (h2 : ciFindRest "final answer:".toList r.toList = some rest)
    (h3 : String.mk (pyStrip rest) = "42") :
    (runReAct oracle reg maxIter task uin).status = "completed" ∧
    (runReAct oracle reg maxIter task uin).final_answer = some "42" ∧
    (runReAct oracle reg maxIter task uin).total_iterations = 1 ∧
    (runReAct oracle reg maxIter task uin).oracle_calls = 1 := by
  obtain ⟨m, rfl⟩ : ∃ m, maxIter = m + 1 := ⟨maxIter - 1, by omega⟩
  unfold runReAct
  rw [runReActAux, h1]
  simp only [parseLLMOutput, h2, h3, truthyStr]
  simp [truthyStr]

/-- Witness for the amended C3 at a concrete scripted oracle. -/
theorem claim_C3_witness :
    (runReAct (fun _ => .ok "Thought: t\nAction: go\nFinal Answer: 42") wtReg 5 "tid" "task").status
      = "completed" ∧
    (runReAct (fun _ => .ok "Thought: t\nAction: go\nFinal Answer: 42") wtReg 5 "tid" "task").final_answer
      = some "42" ∧
    (runReAct (fun _ => .ok "Thought: t\nAction: go\nFinal Answer: 42") wtReg 5 "tid" "task").total_iterations
      = 1 ∧
    (runReAct (fun _ => .ok "Thought: t\nAction: go\nFinal Answer: 42") wtReg 5 "tid" "task").oracle_calls
      = 1 :=
  claim_C3 (fun _ => .ok "Thought: t\nAction: go\nFinal Answer: 42") wtReg 5 "tid" "task"
    "Thought: t\nAction: go\nFinal Answer: 42" " 42".toList
    (by omega) rfl rfl rfl

/-! ## Claim C4 (iteration budget exhaustion) -/

/-- Loop invariant for C4: as long as every oracle response in the
remaining window is delivered (no raise) and carries no
(case-insensitive) `Final Answer:` marker, the loop runs its full budget:
every iteration — with or without an extractable action — consumes one
unit, and each performs exactly one oracle call. -/
theorem runReAct_noFinalAux (task uin : String) (oracle : Nat → Except String String)
    (reg : ToolRegistryM) (maxIter : Nat) :
    ∀ (rem iteration : Nat) (msgs : List ChatMsg) (steps : List ReActStepM) (calls : Nat),
    (∀ i, iteration < i → i ≤ iteration + rem →
        ∃ r, oracle i = .ok r ∧ ciFindRest "final answer:".toList r.toList = none) →
    (runReActAux task uin oracle reg maxIter rem iteration msgs steps calls).status
        = "max_iterations" ∧
    (runReActAux task uin oracle reg maxIter rem iteration msgs steps calls).total_iterations
        = iteration + rem ∧
    (runReActAux task uin oracle reg maxIter rem iteration msgs steps calls).oracle_calls
        = calls + rem := by
  intro rem
  induction rem with
  | zero => intro iteration msgs steps calls _; simp [runReActAux]
  | succ n ih =>
    intro iteration msgs steps calls h
    obtain ⟨r, hr, hnone⟩ := h (iteration + 1) (by omega) (by omega)
    rw [runReActAux, hr]
    simp only [parseLLMOutput, hnone, truthyStr]
    have hshift : ∀ i, iteration + 1 < i → i ≤ iteration + 1 + n →
        ∃ r, oracle i = .ok r ∧ ciFindRest "final answer:".toList r.toList = none :=
      fun i hi1 hi2 => h i (by omega) (by omega)
    rw [if_neg Bool.false_ne_true]
    cases hact : findActionTok r.toList with
    | none =>
      simp only [hact]
      refine ⟨(ih _ _ _ _ hshift).1, ?_, ?_⟩
      · rw [(ih _ _ _ _ hshift).2.1]; omega
      · rw [(ih _ _ _ _ hshift).2.2]; omega
    | some act =>
      simp only [hact]
      refine ⟨(ih _ _ _ _ hshift).1, ?_, ?_⟩
      · rw [(ih _ _ _ _ hshift).2.1]; omega
      · rw [(ih _ _ _ _ hshift).2.2]; omega

/-- C4: with `max_iterations = 3` and an oracle that never raises and
never emits a `Final Answer` marker, `run()` performs exactly 3 oracle
calls and returns status `max_iterations` with `total_iterations = 3`;
iterations without an extractable action also consume budget. -/
theorem claim_C4 (oracle : Nat → Except String String) (reg : ToolRegistryM)
    (task uin : String)
    (h : ∀ i, 1 ≤ i → i ≤ 3 →
        ∃ r, oracle i = .ok r ∧ ciFindRest "final answer:".toList r.toList = none) :
    (runReAct oracle reg 3 task uin).status = "max_iterations" ∧
    (runReAct oracle reg 3 task uin).total_iterations = 3 ∧
    (runReAct oracle reg 3 task uin).oracle_calls = 3 := by
  have h' := runReAct_noFinalAux task uin oracle reg 3 3 0
    (initialMessages uin none) [] 0 (fun i h1 h2 => h i (by omega) (by omega))
  exact ⟨h'.1, h'.2.1, h'.2.2⟩

/-- Witness for C4: an oracle that always answers with a bare thought
(no action, no final answer). -/
theorem claim_C4_witness :
    (runReAct (fun _ => .ok "Thought: x") wtReg 3 "tid" "task").status = "max_iterations" ∧
    (runReAct (fun _ => .ok "Thought: x") wtReg 3 "tid" "task").total_iterations = 3 ∧
    (runReAct (fun _ => .ok "Thought: x") wtReg 3 "tid" "task").oracle_calls = 3 :=
  claim_C4 (fun _ => .ok "Thought: x") wtReg "tid" "task"
    (fun _ _ _ => ⟨"Thought: x", rfl, rfl⟩)

/-! ## Text lemmas for the reference resolver (claims C1 and C10) -/

theorem pySpace_ne_braces {c : Char} (h : isPySpace c = true) : c ≠ '{' ∧ c ≠ '}' := by
  simp only [isPySpace, Bool.or_eq_true, decide_eq_true_eq] at h
  rcases h with ((((h | h) | h) | h) | h) | h <;> subst h <;> exact ⟨by decide, by decide⟩

theorem isDigit_not_pySpace {c : Char} (h : c.isDigit = true) : isPySpace c = false := by
  simp only [Char.isDigit, decide_eq_true_eq] at h
  simp only [isPySpace, Bool.or_eq_false_iff, decide_eq_false_iff_not]
  refine ⟨⟨⟨⟨⟨?_, ?_⟩, ?_⟩, ?_⟩, ?_⟩, ?_⟩ <;> rintro rfl <;> revert h <;> decide

theorem isDigit_ne {c : Char} (h : c.isDigit = true) :
    c ≠ '}' ∧ c ≠ '{' ∧ c ≠ '.' ∧ c ≠ 's' ∧ c ≠ '-' ∧ c ≠ '+' := by
  simp only [Char.isDigit, decide_eq_true_eq] at h
  refine ⟨?_, ?_, ?_, ?_, ?_, ?_⟩ <;> rintro rfl <;> revert h <;> decide

/-- Scanning all-non-`{` text in the `out` state finds nothing there. -/
theorem findRefsAux_out_skip {ws : List Char} (h : ∀ c ∈ ws, c ≠ '{') (rest : List Char) :
    findRefsAux (ws ++ rest) .out = findRefsAux rest .out := by
  induction ws with
  | nil => rfl
  | cons c tl ih =>
    have hc : c ≠ '{' := h c (List.mem_cons_self c tl)
    simp only [List.cons_append, findRefsAux, if_neg hc]
    exact ih (fun d hd => h d (List.mem_cons_of_mem c hd))

/-- Collecting a `}`-free group extends the accumulator. -/
theorem findRefsAux_coll {m : List Char} (h : ∀ c ∈ m, c ≠ '}') :
    ∀ (acc rest : List Char),
      findRefsAux (m ++ rest) (.coll acc) = findRefsAux rest (.coll (acc ++ m)) := by
  induction m with
  | nil => intro acc rest; simp
  | cons c tl ih =>
    intro acc rest
    have hc : c ≠ '}' := h c (List.mem_cons_self c tl)
    simp only [List.cons_append, findRefsAux, if_neg hc, List.append_eq]
    rw [ih (fun d hd => h d (List.mem_cons_of_mem c hd))]
    simp

/-- A well-formed placeholder `{{m}}` (with `m` non-empty and `}`-free) is
matched, and scanning resumes after it. -/
theorem findRefsAux_match {m : List Char} (hne : m ≠ []) (h : ∀ c ∈ m, c ≠ '}')
    (rest : List Char) :
    findRefsAux ('{' :: '{' :: (m ++ '}' :: '}' :: rest)) .out
      = m :: findRefsAux rest .out := by
  simp only [findRefsAux, if_pos rfl, if_true]
  rw [findRefsAux_coll h [] ('}' :: '}' :: rest)]
  simp only [List.nil_append, findRefsAux, if_pos rfl, if_true]
  rw [if_neg (by simpa using hne)]

/-- All-whitespace text contains no reference. -/
theorem findRefsAux_ws_nil {ws : List Char} (h : ∀ c ∈ ws, isPySpace c = true) :
    findRefsAux ws .out = [] := by
  have := @findRefsAux_out_skip ws (fun c hc => (pySpace_ne_braces (h c hc)).1) []
  simpa using this

/-! Strip lemmas. -/

/-- `dropWhile` skips an all-satisfying prefix. -/
theorem dropWhile_sat_append {p : Char → Bool} {a : List Char}
    (h : ∀ c ∈ a, p c = true) (s : List Char) :
    List.dropWhile p (a ++ s) = List.dropWhile p s := by
  induction a with
  | nil => rfl
  | cons c tl ih =>
    simp only [List.cons_append, List.dropWhile_cons, h c (List.mem_cons_self c tl)]
    exact ih (fun d hd => h d (List.mem_cons_of_mem c hd))

theorem pyStripLeft_ws_append {a : List Char} (h : ∀ c ∈ a, isPySpace c = true)
    (s : List Char) : pyStripLeft (a ++ s) = pyStripLeft s :=
  dropWhile_sat_append h s

theorem pyStripLeft_cons_nonws {c : Char} (h : isPySpace c = false) (s : List Char) :
    pyStripLeft (c :: s) = c :: s := by
  simp [pyStripLeft, List.dropWhile_cons, h]

theorem pyStripRight_ws_append {b : List Char} (h : ∀ c ∈ b, isPySpace c = true)
    (s : List Char) : pyStripRight (s ++ b) = pyStripRight s := by
  unfold pyStripRight
  rw [List.reverse_append,
    dropWhile_sat_append (fun c hc => h c (List.mem_reverse.mp hc))]

theorem pyStripRight_snoc_nonws {c : Char} (h : isPySpace c = false) (s : List Char) :
    pyStripRight (s ++ [c]) = s ++ [c] := by
  simp [pyStripRight, List.dropWhile_cons, h]

/-- `strip` of whitespace-padded text whose core starts and ends with
non-whitespace characters. -/
theorem pyStrip_sandwich {a b : List Char} (ha : ∀ c ∈ a, isPySpace c = true)
    (hb : ∀ c ∈ b, isPySpace c = true) {x y : Char} (hx : isPySpace x = false)
    (hy : isPySpace y = false) (mid : List Char) :
    pyStrip (a ++ (x :: mid ++ [y]) ++ b) = x :: mid ++ [y] := by
  have h1 : a ++ (x :: mid ++ [y]) ++ b = a ++ (x :: (mid ++ [y] ++ b)) := by simp
  unfold pyStrip
  rw [h1, pyStripLeft_ws_append ha, pyStripLeft_cons_nonws hx]
  have h2 : x :: (mid ++ [y] ++ b) = ((x :: mid) ++ [y]) ++ b := by simp
  rw [h2, pyStripRight_ws_append hb, pyStripRight_snoc_nonws hy]

/-- Text with no whitespace at all strips to itself. -/
theorem pyStrip_nows {s : List Char} (h : ∀ c ∈ s, isPySpace c = false) :
    pyStrip s = s := by
  rcases List.eq_nil_or_concat s with rfl | ⟨t, y, rfl⟩
  · rfl
  · simp only [List.concat_eq_append] at h ⊢
    cases t with
    | nil =>
      unfold pyStrip
      rw [show ([] : List Char) ++ [y] = [y] from rfl,
        pyStripLeft_cons_nonws (h y (by simp))]
      simpa using pyStripRight_snoc_nonws (h y (by simp)) []
    | cons x mid =>
      have := pyStrip_sandwich (a := []) (b := []) (by simp) (by simp)
        (h x (by simp)) (h y (by simp)) mid
      simpa using this

/-- Stripping only removes whitespace: the non-whitespace characters are
untouched. -/
theorem pyStrip_filter (s : List Char) :
    (pyStrip s).filter (fun c => !isPySpace c) = s.filter (fun c => !isPySpace c) := by
  have h1 : ∀ (t : List Char),
      (t.dropWhile isPySpace).filter (fun c => !isPySpace c)
        = t.filter (fun c => !isPySpace c) := by
    intro t
    induction t with
    | nil => rfl
    | cons c tl ih =>
      by_cases hc : isPySpace c = true
      · simp [List.dropWhile_cons, hc, ih]
      · simp [List.dropWhile_cons, Bool.of_not_eq_true hc]
  show ((((s.dropWhile isPySpace).reverse).dropWhile isPySpace).reverse).filter _ = _
  rw [List.filter_reverse, h1, List.filter_reverse, List.reverse_reverse, h1]

/-! `split('.')` / `'.'.join` lemmas. -/

theorem splitDot_ne_nil (s : List Char) : splitDot s ≠ [] := by
  cases s with
  | nil => simp [splitDot]
  | cons c tl =>
    simp only [splitDot]
    by_cases hc : c = '.'
    · simp [hc]
    · simp only [if_neg hc]
      cases splitDot tl <;> simp

theorem splitDot_cons_nodot {c : Char} (h : c ≠ '.') (s : List Char) :
    splitDot (c :: s) = (c :: (splitDot s).headI) :: (splitDot s).tail := by
  simp only [splitDot, if_neg h]
  cases hs : splitDot s with
  | nil => exact absurd hs (splitDot_ne_nil s)
  | cons hd tl => simp

theorem splitDot_nodot_append {p : List Char} (h : ∀ c ∈ p, c ≠ '.') (q : List Char) :
    splitDot (p ++ '.' :: q) = p :: splitDot q := by
  induction p with
  | nil => simp [splitDot]
  | cons c tl ih =>
    rw [List.cons_append, splitDot_cons_nodot (h c (List.mem_cons_self c tl)),
      ih (fun d hd => h d (List.mem_cons_of_mem c hd))]
    simp

theorem splitDot_nodot {p : List Char} (h : ∀ c ∈ p, c ≠ '.') : splitDot p = [p] := by
  induction p with
  | nil => rfl
  | cons c tl ih =>
    rw [splitDot_cons_nodot (h c (List.mem_cons_self c tl)),
      ih (fun d hd => h d (List.mem_cons_of_mem c hd))]
    simp

theorem joinDot_splitDot (s : List Char) : joinDot (splitDot s) = s := by
  induction s with
  | nil => rfl
  | cons c tl ih =>
    by_cases hc : c = '.'
    · subst hc
      simp only [splitDot, if_pos rfl]
      cases h : splitDot tl with
      | nil => exact absurd h (splitDot_ne_nil tl)
      | cons hd tl' =>
        simp only [joinDot, List.nil_append]
        rw [← h, ih]
    · rw [splitDot_cons_nodot hc]
      cases h : splitDot tl with
      | nil => exact absurd h (splitDot_ne_nil tl)
      | cons hd tl' =>
        cases tl' with
        | nil =>
          simp only [List.headI, List.tail, joinDot]
          have h2 := ih
          rw [h] at h2
          simp only [joinDot] at h2
          rw [h2]
        | cons p2 t2 =>
          simp only [List.headI, List.tail, joinDot]
          have h2 := ih
          rw [h] at h2
          simp only [joinDot] at h2
          rw [List.cons_append, h2]

/-! `str.replace` lemmas. -/

theorem isPrefixOf_self_append (pat rest : List Char) :
    pat.isPrefixOf (pat ++ rest) = true := by
  induction pat with
  | nil => simp [List.isPrefixOf]
  | cons c tl ih => simp [List.isPrefixOf, ih]

theorem isPrefixOf_cons_ne {p0 c : Char} {pat' s : List Char} (h : c ≠ p0) :
    (p0 :: pat').isPrefixOf (c :: s) = false := by
  simp [List.isPrefixOf, h, Ne.symm h]

/-- `replace` passes over text that contains no occurrence of the
pattern's first character. -/
theorem replaceAux_skip {p0 : Char} {pat' repl : List Char} :
    ∀ (pre : List Char), (∀ c ∈ pre, c ≠ p0) → ∀ (f : Nat) (rest : List Char),
      replaceAux (pre.length + f) (pre ++ rest) (p0 :: pat') repl
        = pre ++ replaceAux f rest (p0 :: pat') repl := by
  intro pre
  induction pre with
  | nil => intro _ f rest; simp
  | cons c tl ih =>
    intro h f rest
    have hc : c ≠ p0 := h c (List.mem_cons_self c tl)
    have : (c :: tl).length + f = (tl.length + f) + 1 := by simp; omega
    rw [this, List.cons_append, replaceAux]
    rw [isPrefixOf_cons_ne hc]
    simp only [Bool.false_and, Bool.false_eq_true, if_false]
    rw [ih (fun d hd => h d (List.mem_cons_of_mem c hd)) f rest]
    simp

/-- `replace` rewrites an occurrence of the pattern sitting at the head of
the text. -/
theorem replaceAux_match {p0 : Char} {pat' repl : List Char} (f : Nat) (rest : List Char) :
    replaceAux (f + 1) ((p0 :: pat') ++ rest) (p0 :: pat') repl
      = repl ++ replaceAux f rest (p0 :: pat') repl := by
  rw [List.cons_append, replaceAux]
  rw [show (p0 :: pat').isPrefixOf (p0 :: (pat' ++ rest)) = true from
    isPrefixOf_self_append _ _]
  simp only [List.isEmpty_cons, Bool.not_false, Bool.and_true, Bool.true_eq, if_true]
  congr 1
  rw [show (p0 :: (pat' ++ rest)) = (p0 :: pat') ++ rest from rfl, List.drop_left]

/-- `replace` leaves text without the pattern's first character unchanged,
given enough fuel. -/
theorem replaceAux_none {p0 : Char} {pat' repl : List Char} :
    ∀ (t : List Char), (∀ c ∈ t, c ≠ p0) → ∀ (f : Nat), t.length ≤ f →
      replaceAux f t (p0 :: pat') repl = t := by
  intro t
  induction t with
  | nil => intro _ f _; cases f <;> rfl
  | cons c tl ih =>
    intro h f hf
    obtain ⟨f', rfl⟩ : ∃ f', f = f' + 1 := ⟨f - 1, by simp at hf; omega⟩
    rw [replaceAux, isPrefixOf_cons_ne (h c (List.mem_cons_self c tl))]
    simp only [Bool.false_and, Bool.false_eq_true, if_false]
    rw [ih (fun d hd => h d (List.mem_cons_of_mem c hd)) f' (by simp at hf; omega)]

/-- The single-occurrence replacement situation of the resolver: text is
`pre ++ pat ++ post` where neither `pre` nor `post` contains the pattern's
first character. -/
theorem pyReplace_single {p0 : Char} {pat' pre post repl : List Char}
    (hpre : ∀ c ∈ pre, c ≠ p0) (hpost : ∀ c ∈ post, c ≠ p0) :
    pyReplace (pre ++ (p0 :: pat') ++ post) (p0 :: pat') repl
      = pre ++ repl ++ post := by
  unfold pyReplace
  have hlen : (pre ++ (p0 :: pat') ++ post).length
      = pre.length + ((pat'.length + post.length) + 1) := by
    simp
    try omega
  rw [hlen, List.append_assoc, replaceAux_skip pre hpre]
  rw [show (pat'.length + post.length) + 1 = (pat'.length + post.length) + 1 from rfl,
    replaceAux_match]
  rw [replaceAux_none post hpost _ (by omega)]
  simp

/-! `int()` lemma. -/

theorem pyInt_digits {ds : List Char} (hne : ds ≠ []) (h : ∀ c ∈ ds, c.isDigit = true) :
    pyInt ds = .ok (digitsVal ds) := by
  obtain ⟨d, tl, rfl⟩ : ∃ d tl, ds = d :: tl := by
    cases ds with
    | nil => exact absurd rfl hne
    | cons d tl => exact ⟨d, tl, rfl⟩
  have hd := h d (List.mem_cons_self d tl)
  have hstrip : pyStrip (d :: tl) = d :: tl :=
    pyStrip_nows (fun c hc => isDigit_not_pySpace (h c hc))
  have hdm : d ≠ '-' := (isDigit_ne hd).2.2.2.2.1
  have hdp : d ≠ '+' := (isDigit_ne hd).2.2.2.2.2
  simp only [pyInt, hstrip]
  have hcore : (match d :: tl with
      | '-' :: ds => ds
      | '+' :: ds => ds
      | ds => ds) = d :: tl := by
    split
    · rename_i heq; rw [List.cons.injEq] at heq; exact absurd heq.1 hdm
    · rename_i heq; rw [List.cons.injEq] at heq; exact absurd heq.1 hdp
    · rfl
  rw [hcore]
  rw [if_neg (by
    simp only [List.isEmpty_cons, Bool.false_or, Bool.not_eq_true]
    rw [List.all_eq_true.mpr h]
    simp)]
  split
  · rename_i heq; rw [List.cons.injEq] at heq; exact absurd heq.1 hdm
  · rfl

/-- `(String.mk cs).toList` is `cs`. -/
theorem toList_mk (cs : List Char) : (String.mk cs).toList = cs := rfl

/-! ## Claim C1 (whole-placeholder step reference is type-preserving) -/

/-- C1: for every execution context in which step `N` (written as a
non-empty digit string) appears in the result log with output `V`, a
parameter whose entire value — after stripping surrounding whitespace —
is exactly `{{step_N.output}}` resolves to `V` itself, whatever its type
(`rec.output` is returned untouched, not stringified). -/
theorem claim_C1 (ctx : ExecContext) (a b ds : List Char) (rec : StepResultM)
    (ha : ∀ c ∈ a, isPySpace c = true) (hb : ∀ c ∈ b, isPySpace c = true)
    (hne : ds ≠ []) (hdig : ∀ c ∈ ds, c.isDigit = true)
    (hstep : List.lookup (digitsVal ds : Int) ctx.step_results = some rec) :
    resolveValue ctx (String.mk
        (a ++ ('{' :: '{' :: ("step_".toList ++ ds ++ ".output".toList ++ ['}', '}'])) ++ b))
      = .ok rec.output := by
  set m : List Char := "step_".toList ++ ds ++ ".output".toList with hm
  have hm_ne : m ≠ [] := by simp [hm]
  have hm_nobrace : ∀ c ∈ m, c ≠ '}' := by
    intro c hc
    rw [hm] at hc
    rcases List.mem_append.mp hc with hc | hc
    · rcases List.mem_append.mp hc with hc | hc
      · exact (by decide : ∀ x ∈ "step_".toList, x ≠ '}') c hc
      · exact (isDigit_ne (hdig c hc)).1
    · exact (by decide : ∀ x ∈ ".output".toList, x ≠ '}') c hc
  have hm_nows : ∀ c ∈ m, isPySpace c = false := by
    intro c hc
    rw [hm] at hc
    rcases List.mem_append.mp hc with hc | hc
    · rcases List.mem_append.mp hc with hc | hc
      · exact (by decide : ∀ x ∈ "step_".toList, isPySpace x = false) c hc
      · exact isDigit_not_pySpace (hdig c hc)
    · exact (by decide : ∀ x ∈ ".output".toList, isPySpace x = false) c hc
  have ha' : ∀ c ∈ a, c ≠ '{' := fun c hc => (pySpace_ne_braces (ha c hc)).1
  have hfind : findRefs (a ++ ('{' :: '{' :: (m ++ ['}', '}'])) ++ b) = [m] := by
    unfold findRefs
    rw [show a ++ ('{' :: '{' :: (m ++ ['}', '}'])) ++ b
        = a ++ ('{' :: '{' :: (m ++ '}' :: '}' :: b)) by simp]
    rw [findRefsAux_out_skip ha', findRefsAux_match hm_ne hm_nobrace,
      findRefsAux_ws_nil hb]
  have hstrip : pyStrip (a ++ ('{' :: '{' :: (m ++ ['}', '}'])) ++ b)
      = '{' :: '{' :: (m ++ ['}', '}']) := by
    rw [show a ++ ('{' :: '{' :: (m ++ ['}', '}'])) ++ b
        = a ++ ('{' :: ('{' :: m ++ ['}']) ++ ['}']) ++ b by simp]
    rw [pyStrip_sandwich ha hb (by decide) (by decide)]
    simp
  have hwalk : ∀ v : JVal, walkPath v ["output".toList] = .ok v := fun _ => rfl
  have hrepl : pyReplace ("step_".toList ++ ds) "step_".toList [] = ds := by
    show pyReplace (([] : List Char) ++ ('s' :: "tep_".toList) ++ ds)
        ('s' :: "tep_".toList) [] = ds
    rw [pyReplace_single (by simp)
      (fun c hc => (isDigit_ne (hdig c hc)).2.2.2.1)]
    simp
  have hsplit : splitDot (String.mk m).toList
      = [("step_".toList ++ ds), "output".toList] := by
    rw [toList_mk, show m = ("step_".toList ++ ds) ++ '.' :: "output".toList by simp [hm]]
    rw [splitDot_nodot_append (by
      intro c hc
      rcases List.mem_append.mp hc with hc | hc
      · exact (by decide : ∀ x ∈ "step_".toList, x ≠ '.') c hc
      · exact (isDigit_ne (hdig c hc)).2.2.1)]
    rw [splitDot_nodot (p := "output".toList) (by decide)]
  have hgrv : getReferenceValue ctx (String.mk m) = .ok rec.output := by
    unfold getReferenceValue
    rw [hsplit]
    simp only [isPrefixOf_self_append, if_true, hrepl, pyInt_digits hne hdig,
      ExecContext.getStepOutput, hstep, hwalk]
  unfold resolveValue
  rw [toList_mk, hfind, hstrip]
  split
  · rename_i heq
    exact absurd heq (by simp)
  · rename_i m1 ms heq
    obtain ⟨rfl, rfl⟩ : m = m1 ∧ ms = [] := by
      rw [List.cons.injEq] at heq
      exact ⟨heq.1, heq.2.symm⟩
    rw [if_pos rfl, pyStrip_nows hm_nows]
    exact hgrv

/-- Witness for C1: step 7's dict output is returned as a dict. -/
theorem claim_C1_witness :
    resolveValue
        (mkCtx "t" "u" [] .nil
          [(7, { step_id := 7, status := "success",
                 output := .obj (.cons "k" (.num 3) .nil) })])
        (String.mk
          ("  ".toList ++ ('{' :: '{' :: ("step_".toList ++ "7".toList ++ ".output".toList ++ ['}', '}'])) ++ " ".toList))
      = .ok (.obj (.cons "k" (.num 3) .nil)) := by
  exact claim_C1 _ "  ".toList " ".toList "7".toList
    { step_id := 7, status := "success", output := .obj (.cons "k" (.num 3) .nil) }
    (by decide) (by decide) (by decide) (by decide) rfl

/-! ## Claim C10 (missing variables resolve silently to None) -/

/-- Text without `{` yields no references. -/
theorem findRefsAux_nolb_nil {ws : List Char} (h : ∀ c ∈ ws, c ≠ '{') :
    findRefsAux ws .out = [] := by
  have := findRefsAux_out_skip h []
  simpa using this

/-- C10: resolving `{{variables.<name>}}` when `<name>` is not a key of
the context's variables does not raise.  Whole-placeholder mode (the value
is the placeholder surrounded by whitespace) resolves to `None`
(`JVal.null`); embedded mode (the placeholder inside a larger brace-free
string with some non-whitespace context) replaces the placeholder with the
string `None`. -/
theorem claim_C10 (ctx : ExecContext) (name a b pre post : List Char)
    (hname_nb : ∀ c ∈ name, c ≠ '}')
    (hname_nws : ∀ c ∈ name, isPySpace c = false)
    (hmiss : ctx.vars.get? (String.mk name) = none)
    (ha : ∀ c ∈ a, isPySpace c = true) (hb : ∀ c ∈ b, isPySpace c = true)
    (hpre : ∀ c ∈ pre, c ≠ '{' ∧ c ≠ '}')
    (hpost : ∀ c ∈ post, c ≠ '{' ∧ c ≠ '}')
    (hnws : ∃ c ∈ pre ++ post, isPySpace c = false) :
    resolveValue ctx (String.mk
        (a ++ ('{' :: '{' :: (("variables.".toList ++ name) ++ ['}', '}'])) ++ b))
      = .ok .null ∧
    resolveValue ctx (String.mk
        (pre ++ ('{' :: '{' :: (("variables.".toList ++ name) ++ ['}', '}'])) ++ post))
      = .ok (.str (String.mk (pre ++ "None".toList ++ post))) := by
  set m : List Char := "variables.".toList ++ name with hm
  have hm_ne : m ≠ [] := by simp [hm]
  have hm_nobrace : ∀ c ∈ m, c ≠ '}' := by
    intro c hc
    rw [hm] at hc
    rcases List.mem_append.mp hc with hc | hc
    · exact (by decide : ∀ x ∈ "variables.".toList, x ≠ '}') c hc
    · exact hname_nb c hc
  have hm_nows : ∀ c ∈ m, isPySpace c = false := by
    intro c hc
    rw [hm] at hc
    rcases List.mem_append.mp hc with hc | hc
    · exact (by decide : ∀ x ∈ "variables.".toList, isPySpace x = false) c hc
    · exact hname_nws c hc
  have hgrv : getReferenceValue ctx (String.mk m) = .ok .null := by
    unfold getReferenceValue
    rw [toList_mk,
      show m = "variables".toList ++ '.' :: name from rfl,
      splitDot_nodot_append (by decide)]
    split
    · rename_i heq
      exact absurd heq (by simp)
    · rename_i p0 rest heq
      obtain ⟨rfl, rfl⟩ : "variables".toList = p0 ∧ splitDot name = rest := by
        rw [List.cons.injEq] at heq
        exact ⟨heq.1, heq.2⟩
      rw [show ("step_".toList.isPrefixOf "variables".toList) = false by decide]
      rw [if_neg Bool.false_ne_true, if_pos rfl, joinDot_splitDot]
      rw [show String.mk name = String.mk name from rfl] at hmiss
      rw [hmiss]
      rfl
  constructor
  · -- whole-placeholder mode
    have ha' : ∀ c ∈ a, c ≠ '{' := fun c hc => (pySpace_ne_braces (ha c hc)).1
    have hfind : findRefs (a ++ ('{' :: '{' :: (m ++ ['}', '}'])) ++ b) = [m] := by
      unfold findRefs
      rw [show a ++ ('{' :: '{' :: (m ++ ['}', '}'])) ++ b
          = a ++ ('{' :: '{' :: (m ++ '}' :: '}' :: b)) by simp]
      rw [findRefsAux_out_skip ha', findRefsAux_match hm_ne hm_nobrace,
        findRefsAux_ws_nil hb]
    have hstrip : pyStrip (a ++ ('{' :: '{' :: (m ++ ['}', '}'])) ++ b)
        = '{' :: '{' :: (m ++ ['}', '}']) := by
      rw [show a ++ ('{' :: '{' :: (m ++ ['}', '}'])) ++ b
          = a ++ ('{' :: ('{' :: m ++ ['}']) ++ ['}']) ++ b by simp]
      rw [pyStrip_sandwich ha hb (by decide) (by decide)]
      simp
    unfold resolveValue
    rw [toList_mk, hfind, hstrip]
    split
    · rename_i heq
      exact absurd heq (by simp)
    · rename_i m1 ms heq
      obtain ⟨rfl, rfl⟩ : m = m1 ∧ ms = [] := by
        rw [List.cons.injEq] at heq
        exact ⟨heq.1, heq.2.symm⟩
      rw [if_pos rfl, pyStrip_nows hm_nows]
      exact hgrv
  · -- embedded mode
    have hpre1 : ∀ c ∈ pre, c ≠ '{' := fun c hc => (hpre c hc).1
    have hpost1 : ∀ c ∈ post, c ≠ '{' := fun c hc => (hpost c hc).1
    have hfind : findRefs (pre ++ ('{' :: '{' :: (m ++ ['}', '}'])) ++ post) = [m] := by
      unfold findRefs
      rw [show pre ++ ('{' :: '{' :: (m ++ ['}', '}'])) ++ post
          = pre ++ ('{' :: '{' :: (m ++ '}' :: '}' :: post)) by simp]
      rw [findRefsAux_out_skip hpre1, findRefsAux_match hm_ne hm_nobrace,
        findRefsAux_nolb_nil hpost1]
    have hne_strip : pyStrip (pre ++ ('{' :: '{' :: (m ++ ['}', '}'])) ++ post)
        ≠ '{' :: '{' :: (m ++ ['}', '}']) := by
      intro heq
      have hf := pyStrip_filter (pre ++ ('{' :: '{' :: (m ++ ['}', '}'])) ++ post)
      rw [heq] at hf
      have hlen := congrArg List.length hf
      simp only [List.filter_append, List.length_append] at hlen
      obtain ⟨c, hcmem, hcw⟩ := hnws
      have hzero : (pre.filter (fun c => !isPySpace c)).length = 0 ∧
          (post.filter (fun c => !isPySpace c)).length = 0 := by
        constructor <;> omega
      rcases List.mem_append.mp hcmem with hcp | hcp
      · have : c ∈ pre.filter (fun c => !isPySpace c) :=
          List.mem_filter.mpr ⟨hcp, by simp [hcw]⟩
        have := List.length_pos.mpr (List.ne_nil_of_mem this)
        omega
      · have : c ∈ post.filter (fun c => !isPySpace c) :=
          List.mem_filter.mpr ⟨hcp, by simp [hcw]⟩
        have := List.length_pos.mpr (List.ne_nil_of_mem this)
        omega
    have hemb : resolveEmbedded ctx [m]
        (pre ++ ('{' :: '{' :: (m ++ ['}', '}'])) ++ post)
        = .ok (pyReplace (pre ++ ('{' :: '{' :: (m ++ ['}', '}'])) ++ post)
            ('{' :: '{' :: (m ++ ['}', '}'])) (pyStr .null)) := by
      unfold resolveEmbedded
      rw [pyStrip_nows hm_nows, hgrv]
      rfl
    have hrepl : pyReplace (pre ++ ('{' :: '{' :: (m ++ ['}', '}'])) ++ post)
        ('{' :: '{' :: (m ++ ['}', '}'])) (pyStr .null)
        = pre ++ "None".toList ++ post := by
      show pyReplace (pre ++ ('{' :: ('{' :: (m ++ ['}', '}']))) ++ post)
          ('{' :: ('{' :: (m ++ ['}', '}']))) (pyStr .null) = pre ++ "None".toList ++ post
      rw [pyReplace_single hpre1 hpost1]
      rfl
    unfold resolveValue
    rw [toList_mk, hfind]
    split
    · rename_i heq
      exact absurd heq (by simp)
    · rename_i m1 ms heq
      obtain ⟨rfl, rfl⟩ : m = m1 ∧ ms = [] := by
        rw [List.cons.injEq] at heq
        exact ⟨heq.1, heq.2.symm⟩
      rw [if_neg hne_strip, hemb, hrepl]

/-- Witness for C10 at a concrete context with an empty variables dict. -/
theorem claim_C10_witness :
    resolveValue (mkCtx "t" "u" [] .nil [])
        (String.mk
          (" ".toList ++ ('{' :: '{' :: (("variables.".toList ++ "nope".toList) ++ ['}', '}'])) ++ " ".toList))
      = .ok .null ∧
    resolveValue (mkCtx "t" "u" [] .nil [])
        (String.mk
          ("v=".toList ++ ('{' :: '{' :: (("variables.".toList ++ "nope".toList) ++ ['}', '}'])) ++ "!".toList))
      = .ok (.str (String.mk ("v=".toList ++ "None".toList ++ "!".toList))) := by
  exact claim_C10 (mkCtx "t" "u" [] .nil []) "nope".toList
    " ".toList " ".toList "v=".toList "!".toList
    (by decide) (by decide) rfl (by decide) (by decide) (by decide) (by decide)
    ⟨'v', by decide, by decide⟩

/-! ## Claim C6 (invalid-escape repair in `fix_json_string`) -/

/-- C6 counterexample: in `{"a":"\uZZZZ"}` the backslash is followed by
`u` without four hex digits — not a standard single-character escape and
not the start of a valid 6-character `\uXXXX` escape.  The repair pass
does NOT double this backslash (`u` is in the code's `valid_escapes` set,
so `\u` passes through verbatim), and decoding then fails, contrary to
the claim. -/
theorem claim_C6_counterexample :
    fixJsonString
        ('{' :: '"' :: 'a' :: '"' :: ':' :: '"' :: '\\' :: 'u' :: 'Z' :: 'Z' :: 'Z' :: 'Z'
          :: '"' :: '}' :: [])
      = '{' :: '"' :: 'a' :: '"' :: ':' :: '"' :: '\\' :: 'u' :: 'Z' :: 'Z' :: 'Z' :: 'Z'
          :: '"' :: '}' :: [] ∧
    chatWithJsonExtract (String.mk
        ('{' :: '"' :: 'a' :: '"' :: ':' :: '"' :: '\\' :: 'u' :: 'Z' :: 'Z' :: 'Z' :: 'Z'
          :: '"' :: '}' :: []))
      = .error "Failed to parse JSON response" := by
  exact ⟨rfl, rfl⟩

/-- C6 as amended: for a backslash inside a string literal followed by a
non-control character other than `u` that does not form a standard
single-character escape, the repair pass doubles the backslash and the
document decodes with a literal backslash followed by that character.  (A
backslash followed by `u` that does not begin a valid 6-character escape
is instead passed through unchanged and still causes a decode failure —
see the counterexample.) -/
theorem claim_C6 (c : Char) (h1 : validEscape c = false) (h2 : 32 ≤ c.toNat) :
    fixJsonString ('{' :: '"' :: 'k' :: '"' :: ':' :: '"' :: 'a' :: '\\' :: c :: 'b' :: '"' :: '}' :: [])
      = '{' :: '"' :: 'k' :: '"' :: ':' :: '"' :: 'a' :: '\\' :: '\\' :: c :: 'b' :: '"' :: '}' :: [] ∧
    chatWithJsonExtract (String.mk
        ('{' :: '"' :: 'k' :: '"' :: ':' :: '"' :: 'a' :: '\\' :: c :: 'b' :: '"' :: '}' :: []))
      = .ok (.obj (.cons "k" (.str (String.mk ['a', '\\', c, 'b'])) .nil)) := by
  have hcu : ¬(c = 'u') := fun h => by rw [h] at h1; exact absurd h1 (by decide)
  have hcq : ¬(c = '"') := fun h => by rw [h] at h1; exact absurd h1 (by decide)
  have hcb : ¬(c = '\\') := fun h => by rw [h] at h1; exact absurd h1 (by decide)
  have hlt : ¬(c.toNat < 32) := by omega
  constructor
  · simp [fixJsonString, fixJsonAux, hcu, h1]
  · simp [chatWithJsonExtract, pyStrip, pyStripLeft, pyStripRight, List.isPrefixOf,
      List.isSuffixOf, fixJsonString, fixJsonAux, hcu, h1, hcq, hcb, hlt, loads,
      parseJVal, parseJFields, parseStrBody, escCharVal, parseJNum, isJsonWs]

/-- Witness for the amended C6 at `c = 'q'` (the `\q` escape). -/
theorem claim_C6_witness :
    fixJsonString ('{' :: '"' :: 'k' :: '"' :: ':' :: '"' :: 'a' :: '\\' :: 'q' :: 'b' :: '"' :: '}' :: [])
      = '{' :: '"' :: 'k' :: '"' :: ':' :: '"' :: 'a' :: '\\' :: '\\' :: 'q' :: 'b' :: '"' :: '}' :: [] ∧
    chatWithJsonExtract (String.mk
        ('{' :: '"' :: 'k' :: '"' :: ':' :: '"' :: 'a' :: '\\' :: 'q' :: 'b' :: '"' :: '}' :: []))
      = .ok (.obj (.cons "k" (.str (String.mk ['a', '\\', 'q', 'b'])) .nil)) :=
  claim_C6 'q' (by decide) (by decide)


/-! ## Claim C5 (decoder round trip through fences and trailing prose) -/
/-! ## Character-class facts for the round trip -/

theorem digitChar_isDigit (n : Nat) : (digitChar n).isDigit = true := by
  unfold digitChar; split <;> decide

theorem digitVal_digitChar {n : Nat} (h : n < 10) : digitVal (digitChar n) = n := by
  revert h
  exact (by decide : ∀ m, m < 10 → digitVal (digitChar m) = m) n

theorem hexVal_digitChar {n : Nat} (h : n < 10) : hexVal (digitChar n) = n := by
  revert h
  exact (by decide : ∀ m, m < 10 → hexVal (digitChar m) = m) n

theorem isHexChar_digitChar (n : Nat) : isHexChar (digitChar n) = true := by
  unfold digitChar; split <;> decide

theorem hexVal_hexDigitLow {n : Nat} (h : n < 16) :
    hexVal (dumpsEscape.hexDigitLow n) = n := by
  revert h
  exact (by decide : ∀ m, m < 16 → hexVal (dumpsEscape.hexDigitLow m) = m) n

theorem isHexChar_hexDigitLow (n : Nat) :
    isHexChar (dumpsEscape.hexDigitLow n) = true := by
  unfold dumpsEscape.hexDigitLow; split <;> first | decide | exact isHexChar_digitChar _

theorem digitChar_ne (n : Nat) : digitChar n ≠ '\\' ∧ digitChar n ≠ '"' := by
  unfold digitChar; split <;> exact ⟨by decide, by decide⟩

theorem hexDigitLow_ne (n : Nat) :
    dumpsEscape.hexDigitLow n ≠ '\\' ∧ dumpsEscape.hexDigitLow n ≠ '"' := by
  unfold dumpsEscape.hexDigitLow
  split <;> first | exact ⟨by decide, by decide⟩ | exact digitChar_ne _

/-- Facts about digit characters needed along the number round trip. -/
theorem isDigit_ne2 {c : Char} (h : c.isDigit = true) :
    c ≠ '{' ∧ c ≠ '[' ∧ c ≠ '"' ∧ c ≠ 't' ∧ c ≠ 'f' ∧ c ≠ 'n' ∧ c ≠ '-'
      ∧ c ≠ ']' ∧ c ≠ '}' ∧ c ≠ ',' ∧ c ≠ '\\' := by
  refine ⟨?_, ?_, ?_, ?_, ?_, ?_, ?_, ?_, ?_, ?_, ?_⟩ <;> rintro rfl <;> revert h <;> decide

theorem isDigit_not_jsonWs {c : Char} (h : c.isDigit = true) : isJsonWs c = false := by
  simp only [isJsonWs, Bool.or_eq_false_iff, decide_eq_false_iff_not]
  refine ⟨⟨⟨?_, ?_⟩, ?_⟩, ?_⟩ <;> rintro rfl <;> revert h <;> decide

/-- `takeWhile`/`dropWhile` across an all-satisfying prefix followed by a
list whose head (if any) does not satisfy the predicate. -/
theorem takeWhile_all_append {p : Char → Bool} {xs : List Char}
    (h : ∀ c ∈ xs, p c = true) {rest : List Char} (hr : headNotSat p rest = true) :
    (xs ++ rest).takeWhile p = xs ∧ (xs ++ rest).dropWhile p = rest := by
  induction xs with
  | nil =>
    simp only [List.nil_append]
    cases rest with
    | nil => exact ⟨rfl, rfl⟩
    | cons r rs =>
      simp only [headNotSat, Bool.not_eq_true'] at hr
      simp [List.takeWhile_cons, List.dropWhile_cons, hr]
  | cons c tl ih =>
    have hc := h c (List.mem_cons_self c tl)
    obtain ⟨h1, h2⟩ := ih (fun d hd => h d (List.mem_cons_of_mem c hd))
    simp [List.takeWhile_cons, List.dropWhile_cons, hc, h1, h2]

/-- `dropWhile` length never grows. -/
theorem length_dropWhile_le (p : Char → Bool) :
    ∀ l : List Char, (l.dropWhile p).length ≤ l.length := by
  intro l
  induction l with
  | nil => simp
  | cons c tl ih =>
    rw [List.dropWhile_cons]
    by_cases hc : p c = true
    · rw [if_pos hc]; simp only [List.length_cons]; omega
    · rw [if_neg hc]

/-! ## Decimal rendering round trip -/

theorem natDigitsAux_spec : ∀ fuel n, n < fuel →
    natDigitsAux fuel n ≠ [] ∧ (∀ c ∈ natDigitsAux fuel n, c.isDigit = true)
      ∧ digitsVal (natDigitsAux fuel n) = n := by
  intro fuel
  induction fuel with
  | zero => intro n h; omega
  | succ f ih =>
    intro n h
    by_cases h10 : n < 10
    · simp only [natDigitsAux, if_pos h10]
      refine ⟨by simp, ?_, ?_⟩
      · intro c hc
        rw [List.mem_singleton] at hc
        subst hc
        exact digitChar_isDigit n
      · show digitsVal [digitChar n] = n
        simp [digitsVal, digitVal_digitChar h10]
    · have hdiv : n / 10 < f := by omega
      obtain ⟨hne, hdig, hval⟩ := ih (n / 10) hdiv
      simp only [natDigitsAux, if_neg h10]
      refine ⟨by simp [hne], ?_, ?_⟩
      · intro c hc
        rcases List.mem_append.mp hc with hc | hc
        · exact hdig c hc
        · rw [List.mem_singleton] at hc
          subst hc
          exact digitChar_isDigit _
      · have hmod : n % 10 < 10 := Nat.mod_lt _ (by omega)
        simp only [digitsVal, List.foldl_append, List.foldl_cons, List.foldl_nil]
        simp only [digitsVal] at hval
        rw [hval, digitVal_digitChar hmod]
        omega

theorem natDigits_spec (n : Nat) :
    natDigits n ≠ [] ∧ (∀ c ∈ natDigits n, c.isDigit = true)
      ∧ digitsVal (natDigits n) = n :=
  natDigitsAux_spec (n + 1) n (by omega)

/-! ## String-escape round trip -/

/-- One-step equations for `parseStrBody` (its full equation would loop
as a rewrite rule). -/
theorem parseStrBody_cons_quote (rest : List Char) :
    parseStrBody ('"' :: rest) = .ok ([], rest) := by
  rw [parseStrBody.eq_def]; simp

theorem parseStrBody_cons_esc {e d : Char} (hu : e ≠ 'u') (hd : escCharVal e = some d)
    (rest : List Char) :
    parseStrBody ('\\' :: e :: rest)
      = match parseStrBody rest with
        | .ok (s, r) => .ok (d :: s, r)
        | .error er => .error er := by
  rw [parseStrBody.eq_def]; simp [hu, hd]

theorem parseStrBody_cons_u {d1 d2 d3 d4 : Char} (h1 : isHexChar d1 = true)
    (h2 : isHexChar d2 = true) (h3 : isHexChar d3 = true) (h4 : isHexChar d4 = true)
    (rest : List Char) :
    parseStrBody ('\\' :: 'u' :: d1 :: d2 :: d3 :: d4 :: rest)
      = match parseStrBody rest with
        | .ok (s, r) =>
          .ok (Char.ofNat
            (((hexVal d1 * 16 + hexVal d2) * 16 + hexVal d3) * 16 + hexVal d4) :: s, r)
        | .error er => .error er := by
  rw [parseStrBody.eq_def]; simp [h1, h2, h3, h4]

theorem parseStrBody_cons_plain {c : Char} (hq : c ≠ '"') (hb : c ≠ '\\')
    (hc : ¬(c.toNat < 32)) (rest : List Char) :
    parseStrBody (c :: rest)
      = match parseStrBody rest with
        | .ok (s, r) => .ok (c :: s, r)
        | .error er => .error er := by
  rw [parseStrBody.eq_def]; simp [hq, hb, hc]

/-- `parseStrBody` decodes exactly what `dumpsEscape` encoded and leaves
the text after the closing quote untouched. -/
theorem parseStrBody_escape : ∀ (cs rest : List Char),
    parseStrBody (dumpsEscape cs ++ '"' :: rest) = .ok (cs, rest) := by
  intro cs
  induction cs with
  | nil => intro rest; simp [dumpsEscape, parseStrBody_cons_quote]
  | cons c tl ih =>
    intro rest
    by_cases h1 : c = '"'
    · subst h1
      have hstep := parseStrBody_cons_esc (e := '"') (d := '"') (by decide) rfl
      simp [dumpsEscape, hstep, ih]
    by_cases h2 : c = '\\'
    · subst h2
      have hstep := parseStrBody_cons_esc (e := '\\') (d := '\\') (by decide) rfl
      simp [dumpsEscape, hstep, ih]
    by_cases h3 : c = '\n'
    · subst h3
      have hstep := parseStrBody_cons_esc (e := 'n') (d := '\n') (by decide) rfl
      simp [dumpsEscape, hstep, ih]
    by_cases h4 : c = '\r'
    · subst h4
      have hstep := parseStrBody_cons_esc (e := 'r') (d := '\r') (by decide) rfl
      simp [dumpsEscape, hstep, ih]
    by_cases h5 : c = '\t'
    · subst h5
      have hstep := parseStrBody_cons_esc (e := 't') (d := '\t') (by decide) rfl
      simp [dumpsEscape, hstep, ih]
    by_cases h6 : c = '\x08'
    · subst h6
      have hstep := parseStrBody_cons_esc (e := 'b') (d := '\x08') (by decide) rfl
      simp [dumpsEscape, hstep, ih]
    by_cases h7 : c = '\x0c'
    · subst h7
      have hstep := parseStrBody_cons_esc (e := 'f') (d := '\x0c') (by decide) rfl
      simp [dumpsEscape, hstep, ih]
    by_cases h8 : c.toNat < 32
    · have hh1 : isHexChar (digitChar (c.toNat / 16)) = true := isHexChar_digitChar _
      have hh2 : isHexChar (dumpsEscape.hexDigitLow (c.toNat % 16)) = true :=
        isHexChar_hexDigitLow _
      have hval : Char.ofNat
          (((hexVal '0' * 16 + hexVal '0') * 16 + hexVal (digitChar (c.toNat / 16))) * 16
            + hexVal (dumpsEscape.hexDigitLow (c.toNat % 16))) = c := by
        rw [show hexVal '0' = 0 from rfl, hexVal_digitChar (by omega),
          hexVal_hexDigitLow (by omega),
          show ((0 * 16 + 0) * 16 + c.toNat / 16) * 16 + c.toNat % 16 = c.toNat by omega,
          Char.ofNat_toNat]
      have hstep := @parseStrBody_cons_u '0' '0' (digitChar (c.toNat / 16))
        (dumpsEscape.hexDigitLow (c.toNat % 16)) (by decide) (by decide) hh1 hh2
      simp [dumpsEscape, h1, h2, h3, h4, h5, h6, h7, h8, hstep, hval, ih]
    · have hstep := parseStrBody_cons_plain h1 h2 h8
      simp [dumpsEscape, h1, h2, h3, h4, h5, h6, h7, h8, hstep, ih]

/-! ## One-step equations and head shapes for the value parser -/

theorem mk_toList (s : String) : String.mk s.toList = s := rfl

theorem parseJVal_null (f : Nat) {ws : List Char} (hws : ∀ c ∈ ws, isJsonWs c = true)
    (rest : List Char) :
    parseJVal (f+1) (ws ++ 'n':: 'u':: 'l':: 'l'::rest) = .ok (.null, rest) := by
  rw [parseJVal.eq_def]
  simp [dropWhile_sat_append hws, isJsonWs]

theorem parseJVal_true (f : Nat) {ws : List Char} (hws : ∀ c ∈ ws, isJsonWs c = true)
    (rest : List Char) :
    parseJVal (f+1) (ws ++ 't':: 'r':: 'u':: 'e'::rest) = .ok (.bool true, rest) := by
  rw [parseJVal.eq_def]
  simp [dropWhile_sat_append hws, isJsonWs]

theorem parseJVal_false (f : Nat) {ws : List Char} (hws : ∀ c ∈ ws, isJsonWs c = true)
    (rest : List Char) :
    parseJVal (f+1) (ws ++ 'f':: 'a':: 'l':: 's':: 'e'::rest) = .ok (.bool false, rest) := by
  rw [parseJVal.eq_def]
  simp [dropWhile_sat_append hws, isJsonWs]

theorem parseJVal_digit (f : Nat) {ws : List Char} (hws : ∀ c ∈ ws, isJsonWs c = true)
    {d : Char} (hd : d.isDigit = true) (X : List Char) :
    parseJVal (f+1) (ws ++ d :: X) = parseJNum (d :: X) := by
  obtain ⟨n1, n2, n3, n4, n5, n6, -⟩ := isDigit_ne2 hd
  rw [parseJVal.eq_def]
  simp [dropWhile_sat_append hws, isDigit_not_jsonWs hd, n1, n2, n3, n4, n5, n6]

theorem parseJVal_minus (f : Nat) {ws : List Char} (hws : ∀ c ∈ ws, isJsonWs c = true)
    (X : List Char) :
    parseJVal (f+1) (ws ++ '-' :: X) = parseJNum ('-' :: X) := by
  rw [parseJVal.eq_def]
  simp [dropWhile_sat_append hws, isJsonWs]

theorem parseJVal_quote (f : Nat) {ws : List Char} (hws : ∀ c ∈ ws, isJsonWs c = true)
    (X : List Char) :
    parseJVal (f+1) (ws ++ '"' :: X)
      = match parseStrBody X with
        | .ok (s, r) => .ok (.str (String.mk s), r)
        | .error e => .error e := by
  rw [parseJVal.eq_def]
  simp [dropWhile_sat_append hws, isJsonWs]

theorem parseJVal_lbrace (f : Nat) {ws : List Char} (hws : ∀ c ∈ ws, isJsonWs c = true)
    {d : Char} (hd : isJsonWs d = false) (hne : d ≠ '}') (X : List Char) :
    parseJVal (f+1) (ws ++ '{' :: d :: X)
      = match parseJFields f (d :: X) with
        | .ok (kvs, r) => .ok (.obj kvs, r)
        | .error e => .error e := by
  rw [parseJVal.eq_def]
  simp [dropWhile_sat_append hws, List.dropWhile_cons, hd, hne,
    show isJsonWs '{' = false from rfl]

theorem parseJVal_lbrace_empty (f : Nat) {ws : List Char}
    (hws : ∀ c ∈ ws, isJsonWs c = true) (rest : List Char) :
    parseJVal (f+1) (ws ++ '{' :: '}' :: rest) = .ok (.obj .nil, rest) := by
  rw [parseJVal.eq_def]
  simp [dropWhile_sat_append hws, isJsonWs]

theorem parseJVal_lbrack (f : Nat) {ws : List Char} (hws : ∀ c ∈ ws, isJsonWs c = true)
    {d : Char} (hd : isJsonWs d = false) (hne : d ≠ ']') (X : List Char) :
    parseJVal (f+1) (ws ++ '[' :: d :: X)
      = match parseJItems f (d :: X) with
        | .ok (xs, r) => .ok (.arr xs, r)
        | .error e => .error e := by
  rw [parseJVal.eq_def]
  simp [dropWhile_sat_append hws, List.dropWhile_cons, hd, hne,
    show isJsonWs '[' = false from rfl]

theorem parseJVal_lbrack_empty (f : Nat) {ws : List Char}
    (hws : ∀ c ∈ ws, isJsonWs c = true) (rest : List Char) :
    parseJVal (f+1) (ws ++ '[' :: ']' :: rest) = .ok (.arr .nil, rest) := by
  rw [parseJVal.eq_def]
  simp [dropWhile_sat_append hws, isJsonWs]

theorem parseJItems_succ (f : Nat) (cs : List Char) :
    parseJItems (f+1) cs
      = match parseJVal f cs with
        | .error e => .error e
        | .ok (v, rest) =>
          match rest.dropWhile isJsonWs with
          | ',' :: rest2 =>
            match parseJItems f rest2 with
            | .ok (tl, r) => .ok (.cons v tl, r)
            | .error e => .error e
          | ']' :: rest2 => .ok (.cons v .nil, rest2)
          | _ => .error () := rfl

theorem parseJFields_succ (f : Nat) (cs : List Char) :
    parseJFields (f+1) cs
      = match cs with
        | '"' :: rest =>
          match parseStrBody rest with
          | .error e => .error e
          | .ok (k, rest2) =>
            match rest2.dropWhile isJsonWs with
            | ':' :: rest3 =>
              match parseJVal f rest3 with
              | .error e => .error e
              | .ok (v, rest4) =>
                match rest4.dropWhile isJsonWs with
                | ',' :: rest5 =>
                  match parseJFields f (rest5.dropWhile isJsonWs) with
                  | .ok (tl, r) => .ok (.cons (String.mk k) v tl, r)
                  | .error e => .error e
                | '}' :: rest5 => .ok (.cons (String.mk k) v .nil, rest5)
                | _ => .error ()
            | _ => .error ()
        | _ => .error () := rfl

theorem fuelV_pos (v : JVal) : 1 ≤ fuelV v := by
  cases v <;> simp [fuelV]

theorem fuelA_pos (xs : JArr) : 1 ≤ fuelA xs := by
  cases xs <;> simp [fuelA] <;> omega

theorem fuelO_pos (kvs : JObj) : 1 ≤ fuelO kvs := by
  cases kvs <;> simp [fuelO] <;> omega

/-- `dumps` never begins with whitespace nor with `]`. -/
theorem dumps_head (v : JVal) :
    ∃ c cs, dumps v = c :: cs ∧ isJsonWs c = false ∧ c ≠ ']' := by
  cases v with
  | null => exact ⟨'n', _, rfl, by decide, by decide⟩
  | bool b =>
    cases b with
    | false => exact ⟨'f', _, rfl, by decide, by decide⟩
    | true => exact ⟨'t', _, rfl, by decide, by decide⟩
  | num n =>
    show ∃ c cs, intChars n = c :: cs ∧ isJsonWs c = false ∧ c ≠ ']'
    rw [intChars]
    split
    · exact ⟨'-', _, rfl, by decide, by decide⟩
    · obtain ⟨hne, hdig, -⟩ := natDigits_spec n.toNat
      obtain ⟨c, cs, hcc⟩ := List.exists_cons_of_ne_nil hne
      have hcd : c.isDigit = true := hdig c (by rw [hcc]; exact List.mem_cons_self c cs)
      exact ⟨c, cs, hcc, isDigit_not_jsonWs hcd, (isDigit_ne2 hcd).2.2.2.2.2.2.2.1⟩
  | str s => exact ⟨'"', _, rfl, by decide, by decide⟩
  | arr xs => exact ⟨'[', _, rfl, by decide, by decide⟩
  | obj kvs => exact ⟨'{', _, rfl, by decide, by decide⟩

/-- The rendering of a non-empty array body begins with a non-whitespace,
non-`]` character. -/
theorem dumpsArr_cons_head (v : JVal) (tl : JArr) :
    ∃ c cs, dumpsArr (.cons v tl) = c :: cs ∧ isJsonWs c = false ∧ c ≠ ']' := by
  obtain ⟨c, cs, h1, h2, h3⟩ := dumps_head v
  cases tl with
  | nil => exact ⟨c, cs, h1, h2, h3⟩
  | cons w u =>
    refine ⟨c, cs ++ ',' :: ' ' :: dumpsArr (.cons w u), ?_, h2, h3⟩
    simp [dumpsArr, h1]

/-- The rendering of a non-empty object body begins with the key quote. -/
theorem dumpsObj_cons_head (k : String) (v : JVal) (tl : JObj) :
    ∃ cs, dumpsObj (.cons k v tl) = '"' :: cs := by
  cases tl with
  | nil => exact ⟨_, rfl⟩
  | cons q w u => exact ⟨_, rfl⟩

/-! ## The parser inverts `dumps` -/

/-- `parseJVal`/`parseJItems`/`parseJFields` invert `dumps`/`dumpsArr`/
`dumpsObj`, for any whitespace prefix, any fuel at least the structural
measure, and any trailing text that does not start with a digit. -/
theorem parse_dumps : ∀ fuel : Nat,
    (∀ v ws rest, fuelV v ≤ fuel → (∀ c ∈ ws, isJsonWs c = true) →
        headNotSat Char.isDigit rest = true →
        parseJVal fuel (ws ++ (dumps v ++ rest)) = .ok (v, rest))
    ∧ (∀ xs ws rest, xs ≠ JArr.nil → fuelA xs ≤ fuel →
        (∀ c ∈ ws, isJsonWs c = true) →
        parseJItems fuel (ws ++ (dumpsArr xs ++ ']' :: rest)) = .ok (xs, rest))
    ∧ (∀ kvs rest, kvs ≠ JObj.nil → fuelO kvs ≤ fuel →
        parseJFields fuel (dumpsObj kvs ++ '}' :: rest) = .ok (kvs, rest)) := by
  intro fuel
  induction fuel with
  | zero =>
    refine ⟨fun v ws rest hf => absurd hf (by have := fuelV_pos v; omega),
      fun xs ws rest hne hf => absurd hf (by have := fuelA_pos xs; omega),
      fun kvs rest hne hf => absurd hf (by have := fuelO_pos kvs; omega)⟩
  | succ f ih =>
    obtain ⟨ihV, ihA, ihO⟩ := ih
    refine ⟨?_, ?_, ?_⟩
    · intro v ws rest hfuel hws hrest
      cases v with
      | null =>
        rw [show dumps .null ++ rest = 'n':: 'u':: 'l':: 'l'::rest from rfl]
        exact parseJVal_null f hws rest
      | bool b =>
        cases b with
        | false =>
          rw [show dumps (.bool false) ++ rest = 'f':: 'a':: 'l':: 's':: 'e'::rest from rfl]
          exact parseJVal_false f hws rest
        | true =>
          rw [show dumps (.bool true) ++ rest = 't':: 'r':: 'u':: 'e'::rest from rfl]
          exact parseJVal_true f hws rest
      | num n =>
        by_cases hneg : n < 0
        · obtain ⟨hne, hdig, hval⟩ := natDigits_spec n.natAbs
          have hsh : dumps (.num n) ++ rest = '-' :: (natDigits n.natAbs ++ rest) := by
            simp [dumps, intChars, hneg]
          rw [hsh, parseJVal_minus f hws]
          obtain ⟨htake, hdrop⟩ := takeWhile_all_append hdig hrest
          have hiv : -((digitsVal (natDigits n.natAbs) : Nat) : Int) = n := by
            rw [hval]; omega
          simp [parseJNum, htake, hdrop, hne, hiv]
        · obtain ⟨hne, hdig, hval⟩ := natDigits_spec n.toNat
          obtain ⟨d, ds, hdds⟩ := List.exists_cons_of_ne_nil hne
          have hdd : d.isDigit = true := hdig d (by rw [hdds]; exact List.mem_cons_self d ds)
          have hsh : dumps (.num n) ++ rest = d :: (ds ++ rest) := by
            simp [dumps, intChars, hneg, hdds]
          rw [hsh, parseJVal_digit f hws hdd]
          have hall : ∀ c ∈ d :: ds, c.isDigit = true := by
            rw [← hdds]; exact hdig
          obtain ⟨htake, hdrop⟩ := takeWhile_all_append hall hrest
          simp only [List.cons_append] at htake hdrop
          have hiv : ((digitsVal (d :: ds) : Nat) : Int) = n := by
            rw [show digitsVal (d :: ds) = n.toNat from by rw [← hdds]; exact hval]
            omega
          simp [parseJNum, (isDigit_ne2 hdd).2.2.2.2.2.2.1, htake, hdrop, hiv]
      | str s =>
        have hsh : dumps (.str s) ++ rest = '"' :: (dumpsEscape s.toList ++ '"' :: rest) := by
          simp [dumps]
        rw [hsh, parseJVal_quote f hws, parseStrBody_escape]
        simp [mk_toList]
      | arr xs =>
        cases xs with
        | nil =>
          have hsh : dumps (.arr .nil) ++ rest = '[' :: ']' :: rest := by
            simp [dumps, dumpsArr]
          rw [hsh]
          exact parseJVal_lbrack_empty f hws rest
        | cons v tl =>
          obtain ⟨d0, ds0, h0eq, h0ws, h0ne⟩ := dumpsArr_cons_head v tl
          have hfa : fuelA (.cons v tl) ≤ f := by
            simp only [fuelV] at hfuel; omega
          have hsh : dumps (.arr (.cons v tl)) ++ rest
              = '[' :: (d0 :: (ds0 ++ ']' :: rest)) := by
            simp [dumps, h0eq]
          rw [hsh, parseJVal_lbrack f hws h0ws h0ne]
          have hrepack : d0 :: (ds0 ++ ']' :: rest)
              = dumpsArr (.cons v tl) ++ ']' :: rest := by
            rw [h0eq]; simp
          rw [hrepack]
          have hit := ihA (.cons v tl) [] rest nofun hfa (by simp)
          simp only [List.nil_append] at hit
          rw [hit]
      | obj kvs =>
        cases kvs with
        | nil =>
          have hsh : dumps (.obj .nil) ++ rest = '{' :: '}' :: rest := by
            simp [dumps, dumpsObj]
          rw [hsh]
          exact parseJVal_lbrace_empty f hws rest
        | cons k v tl =>
          obtain ⟨cs0, h0eq⟩ := dumpsObj_cons_head k v tl
          have hfo : fuelO (.cons k v tl) ≤ f := by
            simp only [fuelV] at hfuel; omega
          have hsh : dumps (.obj (.cons k v tl)) ++ rest
              = '{' :: ('"' :: (cs0 ++ '}' :: rest)) := by
            simp [dumps, h0eq]
          rw [hsh, parseJVal_lbrace f hws (show isJsonWs '"' = false from rfl) (by decide)]
          have hrepack : '"' :: (cs0 ++ '}' :: rest)
              = dumpsObj (.cons k v tl) ++ '}' :: rest := by
            rw [h0eq]; simp
          rw [hrepack, ihO (.cons k v tl) rest nofun hfo]
    · intro xs ws rest hne hfuel hws
      cases xs with
      | nil => exact absurd rfl hne
      | cons v tl =>
        rw [parseJItems_succ]
        cases tl with
        | nil =>
          have hsh : ws ++ (dumpsArr (.cons v .nil) ++ ']' :: rest)
              = ws ++ (dumps v ++ ']' :: rest) := by
            simp [dumpsArr]
          have hfv : fuelV v ≤ f := by
            simp only [fuelA] at hfuel; omega
          rw [hsh, ihV v ws (']' :: rest) hfv hws rfl]
          simp [List.dropWhile_cons, show isJsonWs ']' = false from rfl]
        | cons w u =>
          have hsh : ws ++ (dumpsArr (.cons v (.cons w u)) ++ ']' :: rest)
              = ws ++ (dumps v ++ ',' :: ' ' :: (dumpsArr (.cons w u) ++ ']' :: rest)) := by
            simp [dumpsArr]
          have hfv : fuelV v ≤ f := by
            simp only [fuelA] at hfuel; omega
          have hfa2 : fuelA (.cons w u) ≤ f := by
            simp only [fuelA] at hfuel ⊢; omega
          rw [hsh, ihV v ws (',' :: ' ' :: (dumpsArr (.cons w u) ++ ']' :: rest)) hfv hws rfl]
          have hnext := ihA (.cons w u) [' '] rest nofun hfa2
            (by intro c hc; rw [List.mem_singleton] at hc; subst hc; rfl)
          simp only [List.singleton_append] at hnext
          simp [List.dropWhile_cons, show isJsonWs ',' = false from rfl, hnext]
    · intro kvs rest hne hfuel
      cases kvs with
      | nil => exact absurd rfl hne
      | cons k v tl =>
        rw [parseJFields_succ]
        cases tl with
        | nil =>
          have hsh : dumpsObj (.cons k v .nil) ++ '}' :: rest
              = '"' :: (dumpsEscape k.toList
                  ++ '"' :: (':' :: (' ' :: (dumps v ++ '}' :: rest)))) := by
            simp [dumpsObj]
          have hfv : fuelV v ≤ f := by
            simp only [fuelO] at hfuel; omega
          have hv := ihV v [' '] ('}' :: rest) hfv
            (by intro c hc; rw [List.mem_singleton] at hc; subst hc; rfl) rfl
          simp only [List.singleton_append] at hv
          rw [hsh]
          simp [parseStrBody_escape, List.dropWhile_cons,
            show isJsonWs ':' = false from rfl, show isJsonWs '}' = false from rfl,
            hv, mk_toList]
        | cons q w u =>
          obtain ⟨cs2, h2eq⟩ := dumpsObj_cons_head q w u
          have hsh : dumpsObj (.cons k v (.cons q w u)) ++ '}' :: rest
              = '"' :: (dumpsEscape k.toList
                  ++ '"' :: (':' :: (' ' :: (dumps v
                    ++ ',' :: ' ' :: (dumpsObj (.cons q w u) ++ '}' :: rest))))) := by
            simp [dumpsObj]
          have hfv : fuelV v ≤ f := by
            simp only [fuelO] at hfuel; omega
          have hfo2 : fuelO (.cons q w u) ≤ f := by
            simp only [fuelO] at hfuel ⊢; omega
          have hv := ihV v [' ']
            (',' :: ' ' :: (dumpsObj (.cons q w u) ++ '}' :: rest)) hfv
            (by intro c hc; rw [List.mem_singleton] at hc; subst hc; rfl) rfl
          simp only [List.singleton_append] at hv
          have hrec := ihO (.cons q w u) rest nofun hfo2
          have hdw : (' ' :: (dumpsObj (.cons q w u) ++ '}' :: rest)).dropWhile isJsonWs
              = dumpsObj (.cons q w u) ++ '}' :: rest := by
            rw [h2eq]
            simp [List.dropWhile_cons, show isJsonWs ' ' = true from rfl,
              show isJsonWs '"' = false from rfl]
          rw [hsh]
          simp [parseStrBody_escape, List.dropWhile_cons,
            show isJsonWs ':' = false from rfl, show isJsonWs ',' = false from rfl,
            hv, hdw, hrec, mk_toList]

/-! ## Fuel bounds in terms of rendered length -/

mutual
theorem fuelV_le : ∀ v : JVal, fuelV v ≤ 2 * (dumps v).length
  | .null => by simp [fuelV, dumps]
  | .bool b => by cases b <;> simp [fuelV, dumps]
  | .num n => by
    have h2 := List.length_pos.mpr (natDigits_spec n.toNat).1
    have h3 := List.length_pos.mpr (natDigits_spec n.natAbs).1
    simp only [fuelV, dumps, intChars]
    split
    · simp only [List.length_cons]; omega
    · omega
  | .str s => by simp [fuelV, dumps]; omega
  | .arr xs => by
    have h := fuelA_le xs
    simp [fuelV, dumps]; omega
  | .obj kvs => by
    have h := fuelO_le kvs
    simp [fuelV, dumps]; omega
theorem fuelA_le : ∀ xs : JArr, fuelA xs ≤ 3 + 2 * (dumpsArr xs).length
  | .nil => by simp [fuelA, dumpsArr]
  | .cons v .nil => by
    have h := fuelV_le v
    simp [fuelA, dumpsArr]; omega
  | .cons v (.cons w u) => by
    have h1 := fuelV_le v
    have h2 := fuelA_le (.cons w u)
    simp only [fuelA] at h2 ⊢
    simp [dumpsArr]; omega
theorem fuelO_le : ∀ kvs : JObj, fuelO kvs ≤ 3 + 2 * (dumpsObj kvs).length
  | .nil => by simp [fuelO, dumpsObj]
  | .cons k v .nil => by
    have h := fuelV_le v
    simp [fuelO, dumpsObj]; omega
  | .cons k v (.cons q w u) => by
    have h1 := fuelV_le v
    have h2 := fuelO_le (.cons q w u)
    simp only [fuelO] at h2 ⊢
    simp [dumpsObj]; omega
end

/-! ## `loads` on rendered values -/

/-- `json.loads` inverts `json.dumps`. -/
theorem loads_dumps (v : JVal) : loads (dumps v) = .ok v := by
  have h := (parse_dumps (2 * (dumps v).length + 2)).1 v [] []
    (by have := fuelV_le v; omega) (by simp) rfl
  simp only [List.nil_append, List.append_nil] at h
  simp [loads, h]

/-- `json.loads` rejects a rendered value followed by garbage whose first
non-whitespace character exists. -/
theorem loads_dumps_garbage (v : JVal) {g : List Char}
    (hg : headNotSat Char.isDigit g = true)
    (hne : (g.dropWhile isJsonWs).isEmpty = false) :
    loads (dumps v ++ g) = .error () := by
  have h := (parse_dumps (2 * (dumps v ++ g).length + 2)).1 v [] g
    (by have := fuelV_le v; simp [List.length_append]; omega) (by simp) hg
  simp only [List.nil_append] at h
  simp only [List.length_append] at h
  simp [loads, h, hne]

/-! ## The repair pass is the identity on rendered values -/

/-- Characters of `str(int)` are quote-free and backslash-free. -/
theorem intChars_mem {c : Char} {n : Int} (hc : c ∈ intChars n) :
    c ≠ '"' ∧ c ≠ '\\' ∧ c ≠ '{' ∧ c ≠ '}' := by
  rw [intChars] at hc
  split at hc
  · rcases List.mem_cons.mp hc with rfl | hc
    · exact ⟨by decide, by decide, by decide, by decide⟩
    · have hd := (natDigits_spec n.natAbs).2.1 c hc
      obtain ⟨q1, -, q3, -, -, -, -, -, q9, -, q11⟩ := isDigit_ne2 hd
      exact ⟨q3, q11, q1, q9⟩
  · have hd := (natDigits_spec n.toNat).2.1 c hc
    obtain ⟨q1, -, q3, -, -, -, -, -, q9, -, q11⟩ := isDigit_ne2 hd
    exact ⟨q3, q11, q1, q9⟩

/-- Outside strings, quote-free backslash-free text passes through the
repair loop untouched (the backslash run stays zero). -/
theorem fix_outside {cs : List Char} (h : ∀ c ∈ cs, c ≠ '"' ∧ c ≠ '\\')
    (rest : List Char) :
    fixJsonAux (cs ++ rest) false 0 = cs ++ fixJsonAux rest false 0 := by
  induction cs with
  | nil => simp
  | cons c tl ih =>
    obtain ⟨h1, h2⟩ := h c (List.mem_cons_self c tl)
    rw [List.cons_append, fixJsonAux.eq_def]
    simp [h1, h2, ih (fun d hd => h d (List.mem_cons_of_mem c hd))]

/-- Inside a string, escaped content produced by `dumpsEscape` passes
through the repair loop untouched, up to and including the closing
quote (for any even backslash run). -/
theorem fix_str : ∀ (cs : List Char) (bs : Nat), bs % 2 = 0 → ∀ rest : List Char,
    fixJsonAux (dumpsEscape cs ++ '"' :: rest) true bs
      = dumpsEscape cs ++ '"' :: fixJsonAux rest false 0 := by
  intro cs
  induction cs with
  | nil =>
    intro bs hbs rest
    rw [show dumpsEscape [] ++ '"' :: rest = '"' :: rest from rfl, fixJsonAux.eq_def]
    simp [hbs, dumpsEscape]
  | cons c tl ih =>
    intro bs hbs rest
    by_cases h1 : c = '"'
    · subst h1
      rw [show dumpsEscape ('"' :: tl) ++ '"' :: rest
          = '\\' :: '"' :: (dumpsEscape tl ++ '"' :: rest) from by simp [dumpsEscape],
        fixJsonAux.eq_def]
      simp [validEscape, ih 0 rfl, dumpsEscape]
    by_cases h2 : c = '\\'
    · subst h2
      rw [show dumpsEscape ('\\' :: tl) ++ '"' :: rest
          = '\\' :: '\\' :: (dumpsEscape tl ++ '"' :: rest) from by simp [dumpsEscape],
        fixJsonAux.eq_def]
      simp [validEscape, ih (bs + 2) (by omega), dumpsEscape]
    by_cases h3 : c = '\n'
    · subst h3
      rw [show dumpsEscape ('\n' :: tl) ++ '"' :: rest
          = '\\' :: 'n' :: (dumpsEscape tl ++ '"' :: rest) from by simp [dumpsEscape],
        fixJsonAux.eq_def]
      simp [validEscape, ih 0 rfl, dumpsEscape]
    by_cases h4 : c = '\r'
    · subst h4
      rw [show dumpsEscape ('\r' :: tl) ++ '"' :: rest
          = '\\' :: 'r' :: (dumpsEscape tl ++ '"' :: rest) from by simp [dumpsEscape],
        fixJsonAux.eq_def]
      simp [validEscape, ih 0 rfl, dumpsEscape]
    by_cases h5 : c = '\t'
    · subst h5
      rw [show dumpsEscape ('\t' :: tl) ++ '"' :: rest
          = '\\' :: 't' :: (dumpsEscape tl ++ '"' :: rest) from by simp [dumpsEscape],
        fixJsonAux.eq_def]
      simp [validEscape, ih 0 rfl, dumpsEscape]
    by_cases h6 : c = '\x08'
    · subst h6
      rw [show dumpsEscape ('\x08' :: tl) ++ '"' :: rest
          = '\\' :: 'b' :: (dumpsEscape tl ++ '"' :: rest) from by simp [dumpsEscape],
        fixJsonAux.eq_def]
      simp [validEscape, ih 0 rfl, dumpsEscape]
    by_cases h7 : c = '\x0c'
    · subst h7
      rw [show dumpsEscape ('\x0c' :: tl) ++ '"' :: rest
          = '\\' :: 'f' :: (dumpsEscape tl ++ '"' :: rest) from by simp [dumpsEscape],
        fixJsonAux.eq_def]
      simp [validEscape, ih 0 rfl, dumpsEscape]
    by_cases h8 : c.toNat < 32
    · have hh1 : isHexChar (digitChar (c.toNat / 16)) = true := isHexChar_digitChar _
      have hh2 : isHexChar (dumpsEscape.hexDigitLow (c.toNat % 16)) = true :=
        isHexChar_hexDigitLow _
      rw [show dumpsEscape (c :: tl) ++ '"' :: rest
          = '\\' :: 'u' :: '0' :: '0' :: digitChar (c.toNat / 16)
              :: dumpsEscape.hexDigitLow (c.toNat % 16)
              :: (dumpsEscape tl ++ '"' :: rest) from by
            simp [dumpsEscape, h1, h2, h3, h4, h5, h6, h7, h8],
        fixJsonAux.eq_def]
      simp [hh1, hh2, (by decide : isHexChar '0' = true), ih 0 rfl, dumpsEscape,
        h1, h2, h3, h4, h5, h6, h7, h8]
    · rw [show dumpsEscape (c :: tl) ++ '"' :: rest
          = c :: (dumpsEscape tl ++ '"' :: rest) from by
            simp [dumpsEscape, h1, h2, h3, h4, h5, h6, h7, h8],
        fixJsonAux.eq_def]
      simp [h1, h2, h3, h4, h5, h6, h7, h8, ih 0 rfl, dumpsEscape]

mutual
theorem fixV : ∀ (v : JVal) (rest : List Char),
    fixJsonAux (dumps v ++ rest) false 0 = dumps v ++ fixJsonAux rest false 0
  | .null, rest => fix_outside (by decide) rest
  | .bool b, rest => by cases b <;> exact fix_outside (by decide) rest
  | .num n, rest =>
    fix_outside (fun c hc => ⟨(intChars_mem hc).1, (intChars_mem hc).2.1⟩) rest
  | .str s, rest => by
    rw [show dumps (.str s) ++ rest = '"' :: (dumpsEscape s.toList ++ '"' :: rest) from by
        simp [dumps],
      fixJsonAux.eq_def]
    simp [fix_str s.data 0 rfl, dumps]
  | .arr xs, rest => by
    rw [show dumps (.arr xs) ++ rest = '[' :: (dumpsArr xs ++ ']' :: rest) from by
        simp [dumps],
      fixJsonAux.eq_def]
    have h1 := fixA xs (']' :: rest)
    have h2 := @fix_outside [']'] (by decide) rest
    simp only [List.singleton_append] at h2
    simp [h1, h2, dumps]
  | .obj kvs, rest => by
    rw [show dumps (.obj kvs) ++ rest = '{' :: (dumpsObj kvs ++ '}' :: rest) from by
        simp [dumps],
      fixJsonAux.eq_def]
    have h1 := fixO kvs ('}' :: rest)
    have h2 := @fix_outside ['}'] (by decide) rest
    simp only [List.singleton_append] at h2
    simp [h1, h2, dumps]
theorem fixA : ∀ (xs : JArr) (rest : List Char),
    fixJsonAux (dumpsArr xs ++ rest) false 0 = dumpsArr xs ++ fixJsonAux rest false 0
  | .nil, rest => by simp [dumpsArr]
  | .cons v .nil, rest => fixV v rest
  | .cons v (.cons w u), rest => by
    rw [show dumpsArr (.cons v (.cons w u)) ++ rest
        = dumps v ++ (',' :: ' ' :: (dumpsArr (.cons w u) ++ rest)) from by
          simp [dumpsArr],
      fixV v _]
    have h2 := @fix_outside [',', ' '] (by decide) (dumpsArr (.cons w u) ++ rest)
    simp only [List.cons_append, List.nil_append] at h2
    rw [h2, fixA (.cons w u) rest]
    simp [dumpsArr]
theorem fixO : ∀ (kvs : JObj) (rest : List Char),
    fixJsonAux (dumpsObj kvs ++ rest) false 0 = dumpsObj kvs ++ fixJsonAux rest false 0
  | .nil, rest => by simp [dumpsObj]
  | .cons k v .nil, rest => by
    rw [show dumpsObj (.cons k v .nil) ++ rest
        = '"' :: (dumpsEscape k.toList ++ '"' :: (':' :: ' ' :: (dumps v ++ rest))) from by
          simp [dumpsObj],
      fixJsonAux.eq_def]
    have h2 := @fix_outside [':', ' '] (by decide) (dumps v ++ rest)
    simp only [List.cons_append, List.nil_append] at h2
    simp [fix_str k.data 0 rfl, h2, fixV v rest, dumpsObj]
  | .cons k v (.cons q w u), rest => by
    rw [show dumpsObj (.cons k v (.cons q w u)) ++ rest
        = '"' :: (dumpsEscape k.toList ++ '"' :: (':' :: ' ' :: (dumps v
            ++ ',' :: ' ' :: (dumpsObj (.cons q w u) ++ rest)))) from by
          simp [dumpsObj],
      fixJsonAux.eq_def]
    have h2 := @fix_outside [':', ' '] (by decide)
      (dumps v ++ ',' :: ' ' :: (dumpsObj (.cons q w u) ++ rest))
    simp only [List.cons_append, List.nil_append] at h2
    have h3 := @fix_outside [',', ' '] (by decide) (dumpsObj (.cons q w u) ++ rest)
    simp only [List.cons_append, List.nil_append] at h3
    simp [fix_str k.data 0 rfl, h2, fixV v _, h3, fixO (.cons q w u) rest, dumpsObj]
end

/-! ## The bracket-matching fallback on rendered objects -/

theorem scan_step_esc (c : Char) (X : List Char) (inStr : Bool) (cnt : Int) :
    braceScanAux (c :: X) true inStr cnt
      = (braceScanAux X false inStr cnt).map (· + 1) := by
  rw [braceScanAux.eq_def]; simp

theorem scan_step_bs (X : List Char) (inStr : Bool) (cnt : Int) :
    braceScanAux ('\\' :: X) false inStr cnt
      = (braceScanAux X true inStr cnt).map (· + 1) := by
  rw [braceScanAux.eq_def]; simp

theorem scan_step_quote (X : List Char) (inStr : Bool) (cnt : Int) :
    braceScanAux ('"' :: X) false inStr cnt
      = (braceScanAux X false (!inStr) cnt).map (· + 1) := by
  rw [braceScanAux.eq_def]; simp

theorem scan_step_in {c : Char} (h1 : c ≠ '\\') (h2 : c ≠ '"') (X : List Char)
    (cnt : Int) :
    braceScanAux (c :: X) false true cnt
      = (braceScanAux X false true cnt).map (· + 1) := by
  rw [braceScanAux.eq_def]; simp [h1, h2]

theorem scan_step_out {c : Char} (h1 : c ≠ '\\') (h2 : c ≠ '"') (h3 : c ≠ '{')
    (h4 : c ≠ '}') (X : List Char) (cnt : Int) :
    braceScanAux (c :: X) false false cnt
      = (braceScanAux X false false cnt).map (· + 1) := by
  rw [braceScanAux.eq_def]; simp [h1, h2, h3, h4]

theorem scan_step_lb (X : List Char) (cnt : Int) :
    braceScanAux ('{' :: X) false false cnt
      = (braceScanAux X false false (cnt + 1)).map (· + 1) := by
  rw [braceScanAux.eq_def]; simp

theorem scan_step_rb {cnt : Int} (h : ¬(cnt - 1 = 0)) (X : List Char) :
    braceScanAux ('}' :: X) false false cnt
      = (braceScanAux X false false (cnt - 1)).map (· + 1) := by
  rw [braceScanAux.eq_def]; simp [h]

theorem scan_step_rb0 {cnt : Int} (h : cnt - 1 = 0) (X : List Char) :
    braceScanAux ('}' :: X) false false cnt = some 1 := by
  rw [braceScanAux.eq_def]; simp [h]

/-- The scanner crosses an all-plain segment, adding its length. -/
theorem scan_plain {cs : List Char}
    (h : ∀ c ∈ cs, c ≠ '\\' ∧ c ≠ '"' ∧ c ≠ '{' ∧ c ≠ '}') (inStr : Bool) (cnt : Int)
    (rest : List Char) :
    braceScanAux (cs ++ rest) false inStr cnt
      = (braceScanAux rest false inStr cnt).map (· + cs.length) := by
  induction cs with
  | nil =>
    simp only [List.nil_append, List.length_nil]
    cases braceScanAux rest false inStr cnt <;> simp
  | cons c tl ih =>
    obtain ⟨h1, h2, h3, h4⟩ := h c (List.mem_cons_self c tl)
    have ih2 := ih (fun d hd => h d (List.mem_cons_of_mem c hd))
    rw [List.cons_append]
    cases inStr with
    | true =>
      rw [scan_step_in h1 h2, ih2]
      cases braceScanAux rest false true cnt <;> simp <;> omega
    | false =>
      rw [scan_step_out h1 h2 h3 h4, ih2]
      cases braceScanAux rest false false cnt <;> simp <;> omega

/-- The scanner crosses an escaped string body and its closing quote. -/
theorem scan_str : ∀ (cs : List Char) (cnt : Int) (rest : List Char),
    braceScanAux (dumpsEscape cs ++ '"' :: rest) false true cnt
      = (braceScanAux rest false false cnt).map (· + ((dumpsEscape cs).length + 1)) := by
  intro cs
  induction cs with
  | nil =>
    intro cnt rest
    rw [show dumpsEscape [] ++ '"' :: rest = '"' :: rest from rfl, scan_step_quote,
      show (!true) = false from rfl]
    cases braceScanAux rest false false cnt <;> simp [dumpsEscape]
  | cons c tl ih =>
    intro cnt rest
    by_cases h1 : c = '"'
    · subst h1
      rw [show dumpsEscape ('"' :: tl) ++ '"' :: rest
          = '\\' :: '"' :: (dumpsEscape tl ++ '"' :: rest) from by simp [dumpsEscape],
        scan_step_bs, scan_step_esc, ih]
      cases braceScanAux rest false false cnt <;> simp [dumpsEscape] <;> omega
    by_cases h2 : c = '\\'
    · subst h2
      rw [show dumpsEscape ('\\' :: tl) ++ '"' :: rest
          = '\\' :: '\\' :: (dumpsEscape tl ++ '"' :: rest) from by simp [dumpsEscape],
        scan_step_bs, scan_step_esc, ih]
      cases braceScanAux rest false false cnt <;> simp [dumpsEscape] <;> omega
    by_cases h3 : c = '\n'
    · subst h3
      rw [show dumpsEscape ('\n' :: tl) ++ '"' :: rest
          = '\\' :: 'n' :: (dumpsEscape tl ++ '"' :: rest) from by simp [dumpsEscape],
        scan_step_bs, scan_step_esc, ih]
      cases braceScanAux rest false false cnt <;> simp [dumpsEscape] <;> omega
    by_cases h4 : c = '\r'
    · subst h4
      rw [show dumpsEscape ('\r' :: tl) ++ '"' :: rest
          = '\\' :: 'r' :: (dumpsEscape tl ++ '"' :: rest) from by simp [dumpsEscape],
        scan_step_bs, scan_step_esc, ih]
      cases braceScanAux rest false false cnt <;> simp [dumpsEscape] <;> omega
    by_cases h5 : c = '\t'
    · subst h5
      rw [show dumpsEscape ('\t' :: tl) ++ '"' :: rest
          = '\\' :: 't' :: (dumpsEscape tl ++ '"' :: rest) from by simp [dumpsEscape],
        scan_step_bs, scan_step_esc, ih]
      cases braceScanAux rest false false cnt <;> simp [dumpsEscape] <;> omega
    by_cases h6 : c = '\x08'
    · subst h6
      rw [show dumpsEscape ('\x08' :: tl) ++ '"' :: rest
          = '\\' :: 'b' :: (dumpsEscape tl ++ '"' :: rest) from by simp [dumpsEscape],
        scan_step_bs, scan_step_esc, ih]
      cases braceScanAux rest false false cnt <;> simp [dumpsEscape] <;> omega
    by_cases h7 : c = '\x0c'
    · subst h7
      rw [show dumpsEscape ('\x0c' :: tl) ++ '"' :: rest
          = '\\' :: 'f' :: (dumpsEscape tl ++ '"' :: rest) from by simp [dumpsEscape],
        scan_step_bs, scan_step_esc, ih]
      cases braceScanAux rest false false cnt <;> simp [dumpsEscape] <;> omega
    by_cases h8 : c.toNat < 32
    · obtain ⟨g1, g2⟩ := digitChar_ne (c.toNat / 16)
      obtain ⟨g3, g4⟩ := hexDigitLow_ne (c.toNat % 16)
      rw [show dumpsEscape (c :: tl) ++ '"' :: rest
          = '\\' :: 'u' :: '0' :: '0' :: digitChar (c.toNat / 16)
              :: dumpsEscape.hexDigitLow (c.toNat % 16)
              :: (dumpsEscape tl ++ '"' :: rest) from by
            simp [dumpsEscape, h1, h2, h3, h4, h5, h6, h7, h8],
        scan_step_bs, scan_step_esc, scan_step_in (by decide) (by decide),
        scan_step_in (by decide) (by decide), scan_step_in g1 g2,
        scan_step_in g3 g4, ih]
      cases braceScanAux rest false false cnt <;>
        simp [dumpsEscape, h1, h2, h3, h4, h5, h6, h7, h8] <;> omega
    · rw [show dumpsEscape (c :: tl) ++ '"' :: rest
          = c :: (dumpsEscape tl ++ '"' :: rest) from by
            simp [dumpsEscape, h1, h2, h3, h4, h5, h6, h7, h8],
        scan_step_in h2 h1, ih]
      cases braceScanAux rest false false cnt <;>
        simp [dumpsEscape, h1, h2, h3, h4, h5, h6, h7, h8] <;> omega

mutual
theorem scanV : ∀ (v : JVal) (cnt : Int), 1 ≤ cnt → ∀ rest : List Char,
    braceScanAux (dumps v ++ rest) false false cnt
      = (braceScanAux rest false false cnt).map (· + (dumps v).length)
  | .null, cnt, hc, rest => scan_plain (by decide) false cnt rest
  | .bool b, cnt, hc, rest => by
    cases b
    · exact scan_plain (by decide) false cnt rest
    · exact scan_plain (by decide) false cnt rest
  | .num n, cnt, hc, rest =>
    scan_plain (fun c hcm => ⟨(intChars_mem hcm).2.1, (intChars_mem hcm).1,
      (intChars_mem hcm).2.2.1, (intChars_mem hcm).2.2.2⟩) false cnt rest
  | .str s, cnt, hc, rest => by
    rw [show dumps (.str s) ++ rest = '"' :: (dumpsEscape s.data ++ '"' :: rest) from by
        simp [dumps],
      scan_step_quote, show (!false) = true from rfl, scan_str]
    cases braceScanAux rest false false cnt <;> simp [dumps] <;> omega
  | .arr xs, cnt, hc, rest => by
    rw [show dumps (.arr xs) ++ rest = '[' :: (dumpsArr xs ++ ']' :: rest) from by
        simp [dumps],
      scan_step_out (by decide) (by decide) (by decide) (by decide),
      scanA xs cnt hc (']' :: rest),
      scan_step_out (by decide) (by decide) (by decide) (by decide)]
    cases braceScanAux rest false false cnt <;> simp [dumps] <;> omega
  | .obj kvs, cnt, hc, rest => by
    rw [show dumps (.obj kvs) ++ rest = '{' :: (dumpsObj kvs ++ '}' :: rest) from by
        simp [dumps],
      scan_step_lb, scanO kvs (cnt + 1) (by omega) ('}' :: rest),
      scan_step_rb (by omega)]
    rw [show cnt + 1 - 1 = cnt from by omega]
    cases braceScanAux rest false false cnt <;> simp [dumps] <;> omega
theorem scanA : ∀ (xs : JArr) (cnt : Int), 1 ≤ cnt → ∀ rest : List Char,
    braceScanAux (dumpsArr xs ++ rest) false false cnt
      = (braceScanAux rest false false cnt).map (· + (dumpsArr xs).length)
  | .nil, cnt, hc, rest => by
    simp only [dumpsArr, List.nil_append, List.length_nil]
    cases braceScanAux rest false false cnt <;> simp
  | .cons v .nil, cnt, hc, rest => scanV v cnt hc rest
  | .cons v (.cons w u), cnt, hc, rest => by
    rw [show dumpsArr (.cons v (.cons w u)) ++ rest
        = dumps v ++ (',' :: ' ' :: (dumpsArr (.cons w u) ++ rest)) from by
          simp [dumpsArr],
      scanV v cnt hc, scan_step_out (by decide) (by decide) (by decide) (by decide),
      scan_step_out (by decide) (by decide) (by decide) (by decide),
      scanA (.cons w u) cnt hc rest]
    cases braceScanAux rest false false cnt <;> simp [dumpsArr] <;> omega
theorem scanO : ∀ (kvs : JObj) (cnt : Int), 1 ≤ cnt → ∀ rest : List Char,
    braceScanAux (dumpsObj kvs ++ rest) false false cnt
      = (braceScanAux rest false false cnt).map (· + (dumpsObj kvs).length)
  | .nil, cnt, hc, rest => by
    simp only [dumpsObj, List.nil_append, List.length_nil]
    cases braceScanAux rest false false cnt <;> simp
  | .cons k v .nil, cnt, hc, rest => by
    rw [show dumpsObj (.cons k v .nil) ++ rest
        = '"' :: (dumpsEscape k.data ++ '"' :: (':' :: ' ' :: (dumps v ++ rest))) from by
          simp [dumpsObj],
      scan_step_quote, show (!false) = true from rfl, scan_str,
      scan_step_out (by decide) (by decide) (by decide) (by decide),
      scan_step_out (by decide) (by decide) (by decide) (by decide),
      scanV v cnt hc rest]
    cases braceScanAux rest false false cnt <;> simp [dumpsObj] <;> omega
  | .cons k v (.cons q w u), cnt, hc, rest => by
    rw [show dumpsObj (.cons k v (.cons q w u)) ++ rest
        = '"' :: (dumpsEscape k.data ++ '"' :: (':' :: ' ' :: (dumps v
            ++ ',' :: ' ' :: (dumpsObj (.cons q w u) ++ rest)))) from by
          simp [dumpsObj],
      scan_step_quote, show (!false) = true from rfl, scan_str,
      scan_step_out (by decide) (by decide) (by decide) (by decide),
      scan_step_out (by decide) (by decide) (by decide) (by decide),
      scanV v cnt hc, scan_step_out (by decide) (by decide) (by decide) (by decide),
      scan_step_out (by decide) (by decide) (by decide) (by decide),
      scanO (.cons q w u) cnt hc rest]
    cases braceScanAux rest false false cnt <;> simp [dumpsObj] <;> omega
end

/-- From count zero, the scanner stops exactly at the closing brace of a
rendered object. -/
theorem scan_top (kvs : JObj) (rest : List Char) :
    braceScanAux (dumps (.obj kvs) ++ rest) false false 0
      = some (dumps (.obj kvs)).length := by
  rw [show dumps (.obj kvs) ++ rest = '{' :: (dumpsObj kvs ++ '}' :: rest) from by
      simp [dumps],
    scan_step_lb, scanO kvs (0 + 1) (by omega) ('}' :: rest),
    scan_step_rb0 (by omega)]
  simp [dumps]
  omega

/-! ## Assembly facts for the full extraction pass -/

/-- A string equal to its own `rstrip` and non-empty ends in a
non-whitespace character. -/
theorem stripRight_last {l : List Char} (h1 : l ≠ []) (h2 : pyStripRight l = l) :
    ∃ q y, l = q ++ [y] ∧ isPySpace y = false := by
  rcases List.eq_nil_or_concat l with rfl | ⟨q, y, rfl⟩
  · exact absurd rfl h1
  · simp only [List.concat_eq_append] at h2 ⊢
    refine ⟨q, y, rfl, ?_⟩
    by_contra hy
    rw [Bool.not_eq_false] at hy
    have h3 := pyStripRight_ws_append (b := [y])
      (by intro c hc; rw [List.mem_singleton] at hc; subst hc; exact hy) q
    rw [h3] at h2
    have h4 : (pyStripRight q).length ≤ q.length := by
      unfold pyStripRight
      rw [List.length_reverse]
      have := length_dropWhile_le isPySpace q.reverse
      simpa using this
    rw [h2] at h4
    simp only [List.length_append, List.length_singleton] at h4
    omega

/-- `strip` is the identity on text that starts and ends with
non-whitespace characters. -/
theorem pyStrip_cons_snoc {x y : Char} (hx : isPySpace x = false)
    (hy : isPySpace y = false) (mid : List Char) :
    pyStrip (x :: (mid ++ [y])) = x :: (mid ++ [y]) := by
  have := pyStrip_sandwich (a := []) (b := []) (by simp) (by simp) hx hy mid
  simpa using this

/-- Appending a fence-free non-empty tail after a newline cannot create a
trailing fence. -/
theorem suffix_fence_false {l : List Char} (hne : l ≠ [])
    (hsuf : List.isSuffixOf ['`', '`', '`'] l = false) (Y : List Char) :
    List.isSuffixOf ['`', '`', '`'] (Y ++ '\n' :: l) = false := by
  obtain ⟨c, t, hct⟩ := List.exists_cons_of_ne_nil (l := l.reverse) (by simpa using hne)
  unfold List.isSuffixOf at hsuf ⊢
  rw [show (['`', '`', '`'] : List Char).reverse = ['`', '`', '`'] from rfl] at hsuf ⊢
  rw [List.reverse_append, List.reverse_cons, hct]
  rw [hct] at hsuf
  cases t with
  | nil => simp [List.isPrefixOf]
  | cons c2 t2 =>
    cases t2 with
    | nil => simp [List.isPrefixOf]
    | cons c3 t3 =>
      simp [List.isPrefixOf] at hsuf ⊢
      exact hsuf

/-- C5: for every well-formed object (duplicate-free keys, hence faithful
to a Python dict) rendered by `json.dumps`, wrapped in a ```` ```json ````
fenced code block and followed, after the closing fence, by a non-empty
prose line (ending in non-whitespace, not itself ending in a fence), the
extraction pass of `chat_with_json` succeeds and returns exactly that
object, ignoring the trailing commentary: the first `json.loads` attempt
fails on the trailing text, and the bracket-matching fallback recovers
precisely the rendered object. -/
theorem claim_C5 (kvs : JObj) (prose : String)
    (hwf : wfO kvs = true)
    (hne : prose.toList ≠ [])
    (hstr : pyStripRight prose.toList = prose.toList)
    (hsuf : List.isSuffixOf "```".toList prose.toList = false) :
    chatWithJsonExtract
        ("```json\n" ++ String.mk (dumps (.obj kvs)) ++ "\n```\n" ++ prose)
      = .ok (.obj kvs) := by
  obtain ⟨q, y, hqy, hy⟩ := stripRight_last hne hstr
  obtain ⟨G, hG⟩ : ∃ G, fixJsonAux ('`' :: '`' :: '\n' :: prose.toList) false 0 = G :=
    ⟨_, rfl⟩
  have hresp : ("```json\n" ++ String.mk (dumps (.obj kvs)) ++ "\n```\n" ++ prose).toList
      = '`' :: '`' :: '`' :: 'j' :: 's' :: 'o' :: 'n' :: '\n'
          :: (dumps (.obj kvs) ++ ('\n' :: '`' :: '`' :: '`' :: '\n' :: prose.toList)) := by
    simp [String.data_append,
      show "```json\n".data = ['`', '`', '`', 'j', 's', 'o', 'n', '\n'] from rfl,
      show "\n```\n".data = ['\n', '`', '`', '`', '\n'] from rfl]
  have h0 : pyStrip ('`' :: '`' :: '`' :: 'j' :: 's' :: 'o' :: 'n' :: '\n'
          :: (dumps (.obj kvs) ++ ('\n' :: '`' :: '`' :: '`' :: '\n' :: prose.toList)))
      = '`' :: '`' :: '`' :: 'j' :: 's' :: 'o' :: 'n' :: '\n'
          :: (dumps (.obj kvs) ++ ('\n' :: '`' :: '`' :: '`' :: '\n' :: prose.toList)) := by
    rw [hqy]
    rw [show '`' :: '`' :: '`' :: 'j' :: 's' :: 'o' :: 'n' :: '\n'
          :: (dumps (.obj kvs) ++ ('\n' :: '`' :: '`' :: '`' :: '\n' :: (q ++ [y])))
        = '`' :: (('`' :: '`' :: 'j' :: 's' :: 'o' :: 'n' :: '\n'
          :: (dumps (.obj kvs) ++ ('\n' :: '`' :: '`' :: '`' :: '\n' :: q))) ++ [y]) from by
      simp]
    rw [pyStrip_cons_snoc (by decide) hy]
  have h1 : "```json".toList.isPrefixOf
      ('`' :: '`' :: '`' :: 'j' :: 's' :: 'o' :: 'n' :: '\n'
        :: (dumps (.obj kvs) ++ ('\n' :: '`' :: '`' :: '`' :: '\n' :: prose.toList)))
      = true := rfl
  have h2 : ('`' :: '`' :: '`' :: 'j' :: 's' :: 'o' :: 'n' :: '\n'
        :: (dumps (.obj kvs) ++ ('\n' :: '`' :: '`' :: '`' :: '\n' :: prose.toList))).drop 7
      = '\n' :: (dumps (.obj kvs) ++ ('\n' :: '`' :: '`' :: '`' :: '\n' :: prose.toList)) :=
    rfl
  have h3 : "```".toList.isPrefixOf
      ('\n' :: (dumps (.obj kvs) ++ ('\n' :: '`' :: '`' :: '`' :: '\n' :: prose.toList)))
      = false := rfl
  have h4 : "```".toList.isSuffixOf
      ('\n' :: (dumps (.obj kvs) ++ ('\n' :: '`' :: '`' :: '`' :: '\n' :: prose.toList)))
      = false := by
    rw [show '\n' :: (dumps (.obj kvs) ++ ('\n' :: '`' :: '`' :: '`' :: '\n' :: prose.toList))
        = ('\n' :: (dumps (.obj kvs) ++ ['\n', '`', '`', '`'])) ++ '\n' :: prose.toList from by
      simp]
    exact suffix_fence_false hne hsuf _
  have ht4 : pyStrip
      ('\n' :: (dumps (.obj kvs) ++ ('\n' :: '`' :: '`' :: '`' :: '\n' :: prose.toList)))
      = dumps (.obj kvs) ++ ('\n' :: '`' :: '`' :: '`' :: '\n' :: prose.toList) := by
    rw [hqy]
    have hss := pyStrip_sandwich (a := ['\n']) (b := ([] : List Char))
      (by decide) (by simp) (show isPySpace '{' = false from rfl) hy
      ((dumpsObj kvs ++ ['}']) ++ ('\n' :: '`' :: '`' :: '`' :: '\n' :: q))
    rw [show '\n' :: (dumps (.obj kvs) ++ ('\n' :: '`' :: '`' :: '`' :: '\n' :: (q ++ [y])))
        = ['\n'] ++ ('{' :: ((dumpsObj kvs ++ ['}'])
            ++ ('\n' :: '`' :: '`' :: '`' :: '\n' :: q)) ++ [y]) ++ [] from by
      simp [dumps], hss]
    simp [dumps]
  have hclean : fixJsonString
      (dumps (.obj kvs) ++ ('\n' :: '`' :: '`' :: '`' :: '\n' :: prose.toList))
      = dumps (.obj kvs) ++ ('\n' :: '`' :: G) := by
    unfold fixJsonString
    rw [fixV (.obj kvs)]
    have hfx := @fix_outside ['\n', '`'] (by decide) ('`' :: '`' :: '\n' :: prose.toList)
    simp only [List.cons_append, List.nil_append] at hfx
    rw [hfx, hG]
  have hload1 : loads (dumps (.obj kvs) ++ ('\n' :: '`' :: G)) = .error () :=
    loads_dumps_garbage _ rfl
      (by simp [List.dropWhile_cons, show isJsonWs '\n' = true from rfl,
        show isJsonWs '`' = false from rfl])
  have hfind : List.findIdx? (fun c => c = '{') (dumps (.obj kvs) ++ ('\n' :: '`' :: G))
      = some 0 := by
    rw [show dumps (.obj kvs) ++ ('\n' :: '`' :: G)
        = '{' :: ((dumpsObj kvs ++ ['}']) ++ ('\n' :: '`' :: G)) from by simp [dumps]]
    rfl
  have hscan : braceScanAux ((dumps (.obj kvs) ++ ('\n' :: '`' :: G)).drop 0) false false 0
      = some (dumps (.obj kvs)).length := by
    rw [List.drop_zero]
    exact scan_top kvs _
  have htake : ((dumps (.obj kvs) ++ ('\n' :: '`' :: G)).drop 0).take
      (dumps (.obj kvs)).length = dumps (.obj kvs) := by
    rw [List.drop_zero]
    exact List.take_left _ _
  have hload2 : loads (dumps (.obj kvs)) = .ok (.obj kvs) := loads_dumps _
  simp only [chatWithJsonExtract, hresp, h0, h1, h2, h3, h4, ht4, hclean, hload1,
    hfind, hscan, htake, hload2, if_true, if_false, Bool.false_eq_true]

/-- Witness for C5 at a concrete object and concrete trailing prose. -/
theorem claim_C5_witness :
    wfO (.cons "intent" (.str "search") .nil) = true
    ∧ "Here is my analysis.".toList ≠ []
    ∧ pyStripRight "Here is my analysis.".toList = "Here is my analysis.".toList
    ∧ List.isSuffixOf "```".toList "Here is my analysis.".toList = false
    ∧ chatWithJsonExtract
        ("```json\n" ++ String.mk (dumps (.obj (.cons "intent" (.str "search") .nil)))
          ++ "\n```\n" ++ "Here is my analysis.")
        = .ok (.obj (.cons "intent" (.str "search") .nil)) :=
  ⟨by decide, by decide, by decide, by decide,
    claim_C5 (.cons "intent" (.str "search") .nil) "Here is my analysis."
      (by decide) (by decide) (by decide) (by decide)⟩

end AgentFlow
